import Mathlib

/-
Verification of the rallytools-server synchronization and price-discovery
pipeline against its design specification.

Each namespace below is a shallow embedding of one source module:

  Market    : src/rallytools/lib/market.py        (calculate_market_price)
  JsonCanon : json.dumps(..., sort_keys=True) canonicalization used by
              src/rallytools/auctionhouse/jobs.py (origin fingerprint)
  AH        : src/rallytools/auctionhouse/jobs.py (AuctionHouseImporter.import_commodities)
  BNet      : src/rallytools/lib/battlenet.py     (BattleNetAPI._make_request)
  Guild     : src/rallytools/guild/jobs.py        (GuildDataImporter)
  GameData  : src/rallytools/gamedata/jobs.py     (GameDataImporter)

Prices are modelled as integers (the store declares them as integer copper
amounts).  The source computes eps = max(0.05 * price_range, 1000) and mean
prices in floating point; the embedding performs the same comparisons in
exact arithmetic: distances are compared against eps after scaling both
sides by 20 (so eps is represented by eps20 = 20 * eps), and mean
comparisons are cross-multiplied by the cluster cardinalities.
-/

namespace Market

/-- Python min over a nonempty list; the 0 default for [] is never reached
by the source, which guards the empty case separately. -/
def listMin : List ℤ → ℤ
  | [] => 0
  | x :: xs => xs.foldl min x

/-- Python max over a nonempty list; same guard remark as listMin. -/
def listMax : List ℤ → ℤ
  | [] => 0
  | x :: xs => xs.foldl max x

/-- Twenty times the DBSCAN eps of the source:
eps = max(price_range * 0.05, 1000), so 20 * eps = max(price_range, 20000). -/
def eps20 (ps : List ℤ) : ℤ := max (listMax ps - listMin ps) 20000

/-- Distance between listings i and j is at most eps
(|p i - p j| <= eps, compared after scaling both sides by 20). -/
def withinEps (ps : List ℤ) (i j : Fin ps.length) : Prop :=
  20 * |ps.get i - ps.get j| ≤ eps20 ps

instance (ps : List ℤ) (i j : Fin ps.length) : Decidable (withinEps ps i j) := by
  unfold withinEps; infer_instance

/-- Closed eps-ball around listing i, the DBSCAN neighborhood (includes i). -/
def neighbors (ps : List ℤ) (i : Fin ps.length) : Finset (Fin ps.length) :=
  Finset.univ.filter (fun j => withinEps ps i j)

/-- Core point for min_samples = 2, the value the source passes to DBSCAN:
at least 2 samples (the point itself included) inside the eps-ball. -/
def isCore (ps : List ℤ) (i : Fin ps.length) : Prop :=
  2 ≤ (neighbors ps i).card

instance (ps : List ℤ) (i : Fin ps.length) : Decidable (isCore ps i) := by
  unfold isCore; infer_instance

/-- One step of DBSCAN cluster expansion: add every core point within eps
of a core point already collected.  With min_samples = 2 every member of a
cluster is core, so this is the full expansion step. -/
def expandOnce (ps : List ℤ) (s : Finset (Fin ps.length)) : Finset (Fin ps.length) :=
  s ∪ Finset.univ.filter (fun j => isCore ps j ∧ ∃ i ∈ s, isCore ps i ∧ withinEps ps i j)

/-- DBSCAN cluster seeded at i: expansion iterated length-many times reaches
the fixed point, the connected component of i through core points. -/
def component (ps : List ℤ) (i : Fin ps.length) : Finset (Fin ps.length) :=
  (expandOnce ps)^[ps.length] {i}

/-- Clusters in DBSCAN label order: scan the points in index order and open a
new cluster at every core point not already labelled; -1 noise points (the
non-core points) receive no cluster. -/
def clusterList (ps : List ℤ) : List (Finset (Fin ps.length)) :=
  (List.finRange ps.length).foldl
    (fun acc i => if isCore ps i ∧ ∀ C ∈ acc, i ∉ C then acc ++ [component ps i] else acc) []

/-- Sum of the prices of a cluster. -/
def clusterSum (ps : List ℤ) (C : Finset (Fin ps.length)) : ℤ :=
  ∑ j ∈ C, ps.get j

/-- Mean price of a cluster, as an exact rational (spec-level notion; the
source computes np.mean in floating point). -/
def clusterMean (ps : List ℤ) (C : Finset (Fin ps.length)) : ℚ :=
  (clusterSum ps C : ℚ) / (C.card : ℚ)

/-- Comparison avg_price < lowest_avg_price of the source, cross-multiplied
by the (positive) cardinalities so it stays in exact integer arithmetic. -/
def meanLt (ps : List ℤ) (C D : Finset (Fin ps.length)) : Prop :=
  clusterSum ps C * D.card < clusterSum ps D * C.card

instance (ps : List ℤ) (C D : Finset (Fin ps.length)) : Decidable (meanLt ps C D) := by
  unfold meanLt; infer_instance

/-- Selection loop of the source: scan the labels in ascending order keeping
the cluster with the strictly lowest average price. -/
def bestCluster (ps : List ℤ) : Option (Finset (Fin ps.length)) :=
  match clusterList ps with
  | [] => none
  | c :: rest => some (rest.foldl (fun b d => if meanLt ps d b then d else b) c)

/-- Minimum price inside a cluster (np.min over the cluster rows), computed
as the minimum over the index positions that belong to the cluster. -/
def clusterMinPrice (ps : List ℤ) (C : Finset (Fin ps.length)) : ℤ :=
  listMin (((List.finRange ps.length).filter (· ∈ C)).map (ps.get))

/-- Shallow embedding of calculate_market_price (lib/market.py, lines 54-113):
empty list gives 0; fewer than 3 listings give the plain minimum; otherwise
DBSCAN with eps = max(0.05 * range, 1000) and min_samples = 2 runs, all-noise
input falls back to the minimum, and otherwise the minimum price of the
lowest-mean cluster is returned. -/
def calculate_market_price (ps : List ℤ) : ℤ :=
  if ps = [] then 0
  else if ps.length < 3 then listMin ps
  else
    match bestCluster ps with
    | none => listMin ps
    | some C => clusterMinPrice ps C

end Market

namespace JsonCanon

mutual
/-- JSON value as produced by response.json() in the source; objects keep
their key order, mirroring Python dict insertion order. -/
inductive Json where
  | null : Json
  | bool (b : Bool) : Json
  | num (n : ℤ) : Json
  | str (s : String) : Json
  | arr (elems : JsonArr) : Json
  | obj (entries : JsonObj) : Json
/-- Sequence of JSON array elements. -/
inductive JsonArr where
  | nil : JsonArr
  | cons (hd : Json) (tl : JsonArr) : JsonArr
/-- Ordered sequence of JSON object entries (key, value). -/
inductive JsonObj where
  | nil : JsonObj
  | cons (key : String) (val : Json) (tl : JsonObj) : JsonObj
end

/-- Object entries viewed as a Lean list of pairs. -/
def entriesToList : JsonObj → List (String × Json)
  | .nil => []
  | .cons k v t => (k, v) :: entriesToList t

/-- Object built back from a Lean list of pairs. -/
def entriesOfList : List (String × Json) → JsonObj
  | [] => .nil
  | (k, v) :: t => .cons k v (entriesOfList t)

/-- Order on object entries by key, the sort_keys=True order of json.dumps. -/
def keyLe (a b : String × Json) : Prop := a.1 ≤ b.1

instance : DecidableRel keyLe := fun a b => inferInstanceAs (Decidable (a.1 ≤ b.1))

instance : IsTotal (String × Json) keyLe := ⟨fun a b => le_total a.1 b.1⟩

instance : IsTrans (String × Json) keyLe := ⟨fun _ _ _ h h2 => le_trans h h2⟩

/-- Entries of one object level sorted by key. -/
def sortEntries (e : JsonObj) : JsonObj :=
  entriesOfList (List.insertionSort keyLe (entriesToList e))

mutual
/-- Canonical form of a payload: every object level sorted by key,
recursively, which is the form json.dumps(payload, sort_keys=True)
serializes. -/
def canon : Json → Json
  | .null => .null
  | .bool b => .bool b
  | .num n => .num n
  | .str s => .str s
  | .arr xs => .arr (canonArr xs)
  | .obj e => .obj (sortEntries (canonObj e))
/-- Canonical form of every element of an array. -/
def canonArr : JsonArr → JsonArr
  | .nil => .nil
  | .cons x t => .cons (canon x) (canonArr t)
/-- Canonical form of every value of an object, keys and order untouched. -/
def canonObj : JsonObj → JsonObj
  | .nil => .nil
  | .cons k v t => .cons k (canon v) (canonObj t)
end

mutual
/-- Serialization in the default format of json.dumps (item separator
comma-space, key separator colon-space); escaping inside strings is not
modelled, payload strings are taken escape-free. -/
def serialize : Json → String
  | .null => "null"
  | .bool b => cond b "true" "false"
  | .num n => toString n
  | .str s => "\"" ++ s ++ "\""
  | .arr xs => "[" ++ serializeArr xs ++ "]"
  | .obj e => "\x7b" ++ serializeObj e ++ "\x7d"
/-- Comma-joined serialization of array elements. -/
def serializeArr : JsonArr → String
  | .nil => ""
  | .cons x .nil => serialize x
  | .cons x t => serialize x ++ ", " ++ serializeArr t
/-- Comma-joined serialization of object entries. -/
def serializeObj : JsonObj → String
  | .nil => ""
  | .cons k v .nil => "\"" ++ k ++ "\": " ++ serialize v
  | .cons k v t => "\"" ++ k ++ "\": " ++ serialize v ++ ", " ++ serializeObj t
end

/-- Canonical serialized form: json.dumps(payload, sort_keys=True). -/
def canonicalString (P : Json) : String := serialize (canon P)

/-- Origin fingerprint of auctionhouse/jobs.py lines 24-32: a sha256
hexdigest of the canonical serialization.  The hash function itself is
opaque to the dedup argument and is modelled as an arbitrary function H of
the serialized string. -/
def fingerprint (H : String → String) (P : Json) : String := H (canonicalString P)

mutual
/-- Key reordering of a payload: apply an entry rearrangement f at every
object level, leaving array order and all values in place. -/
def mapObjs (f : List (String × Json) → List (String × Json)) : Json → Json
  | .null => .null
  | .bool b => .bool b
  | .num n => .num n
  | .str s => .str s
  | .arr xs => .arr (mapObjsArr f xs)
  | .obj e => .obj (entriesOfList (f (entriesToList (mapObjsObj f e))))
/-- Key reordering applied to every element of an array. -/
def mapObjsArr (f : List (String × Json) → List (String × Json)) : JsonArr → JsonArr
  | .nil => .nil
  | .cons x t => .cons (mapObjs f x) (mapObjsArr f t)
/-- Key reordering applied to every value of an object. -/
def mapObjsObj (f : List (String × Json) → List (String × Json)) : JsonObj → JsonObj
  | .nil => .nil
  | .cons k v t => .cons k (mapObjs f v) (mapObjsObj f t)
end

mutual
/-- Well-formed payload: at every object level the keys are distinct, as is
automatic for a payload arising from a Python dict. -/
def wellFormedB : Json → Bool
  | .null => true
  | .bool _ => true
  | .num _ => true
  | .str _ => true
  | .arr xs => wellFormedArrB xs
  | .obj e => decide ((entriesToList e).map Prod.fst).Nodup && wellFormedObjB e
/-- Well-formedness of every element of an array. -/
def wellFormedArrB : JsonArr → Bool
  | .nil => true
  | .cons x t => wellFormedB x && wellFormedArrB t
/-- Well-formedness of every value of an object. -/
def wellFormedObjB : JsonObj → Bool
  | .nil => true
  | .cons _ v t => wellFormedB v && wellFormedObjB t
end

end JsonCanon

namespace BNet

/-- Outcome of one requests.get attempt as the retry loop of _make_request
observes it: a successful JSON body, an HTTPError with a status code, or
another RequestException. -/
inductive Attempt where
  | ok (body : String)
  | httpError (status : ℕ) (text : String)
  | requestFailure (msg : String)
deriving DecidableEq

/-- Value surfaced to the caller of _make_request: a JSON body, one of the
two exception classes, or the implicit Python None that falls out of the
loop when all retries are exhausted. -/
inductive RequestResult where
  | json (body : String)
  | notFoundError (msg : String)
  | apiError (msg : String)
  | noneResult
deriving DecidableEq

/-- Status codes retried with backoff (lib/battlenet.py line 8). -/
def RETRY_STATUS_CODES : List ℕ := [429, 502]

/-- Status codes surfaced as BattleNetAPINotFoundError (line 9). -/
def NOT_FOUND_STATUS_CODES : List ℕ := [404]

/-- Maximum number of attempts (line 10). -/
def MAX_RETRIES : ℕ := 3

/-- Base backoff duration in seconds (line 11). -/
def BASE_BACKOFF_SECONDS : ℕ := 1

/-- Pre-jitter wait before the retry that follows attempt number k
(0-based): BASE_BACKOFF_SECONDS * 2 ** k.  The source then sleeps this
duration plus a random jitter drawn from [0, wait / 10]. -/
def waitTime (k : ℕ) : ℕ := BASE_BACKOFF_SECONDS * 2 ^ k

/-- Retry loop of _make_request (lib/battlenet.py lines 112-139), for the
iterations with attempt indices k, k+1, ..., k+remaining-1 and with the
outcome of attempt number a given by resp a.  Returns the pre-jitter sleep
durations performed, the number of attempts made and the surfaced result.
Exhausting the loop returns the implicit None of the Python function. -/
def attemptsFrom (resp : ℕ → Attempt) : ℕ → ℕ → List ℕ × ℕ × RequestResult
  | _, 0 => ([], 0, .noneResult)
  | k, remaining + 1 =>
    match resp k with
    | .ok body => ([], 1, .json body)
    | .httpError status text =>
      if status ∈ RETRY_STATUS_CODES then
        if k < MAX_RETRIES - 1 then
          (waitTime k :: (attemptsFrom resp (k + 1) remaining).1,
           (attemptsFrom resp (k + 1) remaining).2.1 + 1,
           (attemptsFrom resp (k + 1) remaining).2.2)
        else
          ([], 1, .noneResult)
      else if status ∈ NOT_FOUND_STATUS_CODES then
        ([], 1, .notFoundError text)
      else
        ([], 1, .apiError text)
    | .requestFailure msg => ([], 1, .apiError msg)

/-- Shallow embedding of the whole retry loop of _make_request: run the
MAX_RETRIES loop iterations starting at attempt 0. -/
def make_request (resp : ℕ → Attempt) : List ℕ × ℕ × RequestResult :=
  attemptsFrom resp 0 MAX_RETRIES

end BNet

namespace AH

/-- Item reference data returned by get_item and get_item_media for an item
id the upstream API knows; an id the API answers 404 for maps to none
(BattleNetAPINotFoundError on the per-item fetch). -/
structure ItemInfo where
  name : String
  itemClass : String
  itemSubclass : String
  icon : String
deriving DecidableEq

/-- Per-item metrics computed by market.analyze_market_data. -/
structure Metrics where
  totalQuantity : ℤ
  marketPrice : ℤ
deriving DecidableEq

/-- Commodity price-result row; the store declares the uniqueness
constraint unique_together on (item, origin)
(auctionhouse/models.py lines 13-15). -/
structure CommodityRow where
  item : ℤ
  quantity : ℤ
  marketPrice : ℤ
  origin : String
deriving DecidableEq

/-- Canonical store as the importer sees it: known Item ids and the
commodity price-result rows. -/
structure Store where
  items : List ℤ
  commodities : List CommodityRow
deriving DecidableEq

/-- Counters returned by import_commodities. -/
structure Summary where
  num_added : ℕ
  num_skipped : ℕ
deriving DecidableEq

/-- Loop body of import_commodities (auctionhouse/jobs.py lines 41-85) for
one item id of the market analysis: skip when a row with the same
(item, origin) pair already existed at the start of the run; otherwise
fetch the item when unknown, passing silently over ids whose item fetch
404s (junk items); otherwise create the row.  num_added is incremented
twice per created row, mirroring the duplicated increment on lines 82
and 85 of the source. -/
def processItem (origin : String) (lookup : ℤ → Option ItemInfo) (metrics : ℤ → Metrics)
    (existingCommodities existingItems : List ℤ) :
    Store × Summary → ℤ → Store × Summary :=
  fun acc itemId =>
    if itemId ∈ existingCommodities then
      (acc.1, { acc.2 with num_skipped := acc.2.num_skipped + 1 })
    else if itemId ∉ existingItems then
      match lookup itemId with
      | none => acc
      | some _ =>
        ({ items := acc.1.items ++ [itemId],
           commodities := acc.1.commodities ++
             [⟨itemId, (metrics itemId).totalQuantity, (metrics itemId).marketPrice, origin⟩] },
         { acc.2 with num_added := acc.2.num_added + 1 + 1 })
    else
      ({ acc.1 with
           commodities := acc.1.commodities ++
             [⟨itemId, (metrics itemId).totalQuantity, (metrics itemId).marketPrice, origin⟩] },
       { acc.2 with num_added := acc.2.num_added + 1 + 1 })

/-- Ids of the price-result rows carrying the given origin, the
existing_commodities query of line 35. -/
def existingFor (st : Store) (origin : String) : List ℤ :=
  (st.commodities.filter (fun c => c.origin = origin)).map (fun c => c.item)

/-- Shallow embedding of AuctionHouseImporter.import_commodities
(auctionhouse/jobs.py lines 20-91).  origin is the sha256 fingerprint of
the snapshot, marketItems the item ids of the market analysis in dict
order, lookup the per-item detail fetch (none modelling a 404) and metrics
the analysis result per item.  Both existing-id queries are snapshots taken
before the loop, as on lines 35-36. -/
def import_commodities (st : Store) (origin : String) (marketItems : List ℤ)
    (lookup : ℤ → Option ItemInfo) (metrics : ℤ → Metrics) : Store × Summary :=
  marketItems.foldl
    (processItem origin lookup metrics (existingFor st origin) st.items)
    (st, ⟨0, 0⟩)

end AH

namespace Guild

/-- Errors a guild job run can surface: the domain error
GuildDataImportError, or a low-level error escaping unwrapped (a raw
BattleNetAPIError, or a raw Django DoesNotExist). -/
inductive GuildError where
  | guildDataImportError (msg : String)
  | battleNetAPIError (msg : String)
  | doesNotExist (msg : String)
deriving DecidableEq

/-- Character row of guild/models.py: the guild relation is a nullable
foreign key with on_delete SET_NULL; profile fields beyond the roster sync
are summarised by the spec fields below. -/
structure Character where
  id : ℤ
  name : String
  level : ℤ
  guild : Option ℤ
  guild_rank : Option ℤ
  classId : ℤ
  raceId : ℤ
  specId : Option ℤ
  achievementPoints : ℤ
  icon : String
deriving DecidableEq

/-- Roster member as reported by get_guild_roster. -/
structure Member where
  id : ℤ
  name : String
  level : ℤ
  rank : ℤ
  classId : ℤ
  raceId : ℤ
deriving DecidableEq

/-- Store slice the guild jobs touch: guild ids, character rows and the
playable class, race and specialization catalogs. -/
structure GStore where
  guilds : List ℤ
  characters : List Character
  knownClasses : List ℤ
  knownRaces : List ℤ
  knownSpecs : List ℤ
deriving DecidableEq

/-- Summary of sync_guild_roster. -/
structure RosterSummary where
  num_added : ℕ
  num_skipped : ℕ
  num_removed : ℕ
deriving DecidableEq

/-- Additions loop of sync_guild_roster (guild/jobs.py lines 61-82): skip
members already in the roster, create the others (after the class and race
catalog lookups, whose DoesNotExist aborts the run and is wrapped by the
surrounding handler into GuildDataImportError).  Returns the store after
the additions, the added_or_skipped id set and the two counters, or the
store at failure time with the pending exception. -/
def rosterAdditions (gid : ℤ) (existing : List ℤ) :
    List Member → GStore → List ℤ → ℕ → ℕ →
    (GStore × List ℤ × ℕ × ℕ) ⊕ (GStore × String)
  | [], st, seen, nadd, nskip => .inl (st, seen, nadd, nskip)
  | m :: rest, st, seen, nadd, nskip =>
    if m.id ∈ existing then
      rosterAdditions gid existing rest st (seen ++ [m.id]) nadd (nskip + 1)
    else if m.classId ∉ st.knownClasses ∨ m.raceId ∉ st.knownRaces then
      .inr (st, "PlayableClass or PlayableRace matching query does not exist")
    else
      rosterAdditions gid existing rest
        { st with characters := st.characters ++
            [⟨m.id, m.name, m.level, some gid, some m.rank, m.classId, m.raceId, none, 0, ""⟩] }
        (seen ++ [m.id]) (nadd + 1) nskip

/-- Shallow embedding of GuildDataImporter.sync_guild_roster
(guild/jobs.py lines 42-103).  The removal loop of lines 87-91 operates on
a QuerySet: member = Character.objects.filter(id=member_id) is a QuerySet,
so member.save() raises AttributeError on the first id to remove; the
surrounding handler wraps it into GuildDataImportError, no relation is
cleared and num_removed never advances.  An empty removal set completes
normally. -/
def sync_guild_roster (st : GStore) (gid : ℤ) (members : List Member) :
    GStore × Except GuildError RosterSummary :=
  if gid ∉ st.guilds then
    (st, .error (.guildDataImportError "No existing guild"))
  else
    let existing := ((st.characters.filter (fun c => c.guild = some gid)).map (fun c => c.id))
    match rosterAdditions gid existing members st [] 0 0 with
    | .inr (st2, msg) =>
      (st2, .error (.guildDataImportError ("Failed to sync guild roster: " ++ msg)))
    | .inl (st2, seen, nadd, nskip) =>
      let toRemove := existing.filter (fun i => i ∉ seen)
      if toRemove = [] then
        (st2, .ok ⟨nadd, nskip, 0⟩)
      else
        (st2, .error (.guildDataImportError
          "Failed to sync guild roster: QuerySet object has no attribute save"))

/-- Outcome of one profile fetch (character summary or media) for one
character: the payload, a 404, or another client failure. -/
inductive CharFetch (α : Type) where
  | ok (val : α)
  | notFound (msg : String)
  | fatal (msg : String)

/-- Character summary payload fields used by sync_characters. -/
structure CharSummary where
  activeSpecId : ℤ
  achievementPoints : ℤ
deriving DecidableEq

/-- Summary of sync_characters. -/
structure CharSyncSummary where
  num_success : ℕ
  characters_not_found : List ℤ
deriving DecidableEq

/-- Shallow embedding of GuildDataImporter.sync_characters (guild/jobs.py
lines 106-160).  Only BattleNetAPINotFoundError is caught, at the per
character boundary (lines 138-145); any other client failure and a missing
PlayableSpecialization row propagate raw, because the function body has no
surrounding try/except. -/
def sync_characters (st : GStore)
    (summaryFetch : ℤ → CharFetch CharSummary)
    (mediaFetch : ℤ → CharFetch String) :
    GStore × Except GuildError CharSyncSummary :=
  go st st.characters 0 []
where
  /-- Per-character loop of sync_characters. -/
  go (st : GStore) : List Character → ℕ → List ℤ →
      GStore × Except GuildError CharSyncSummary
  | [], nsucc, notFound => (st, .ok ⟨nsucc, notFound⟩)
  | c :: rest, nsucc, notFound =>
    match summaryFetch c.id with
    | .notFound _ => go st rest nsucc (notFound ++ [c.id])
    | .fatal msg => (st, .error (.battleNetAPIError msg))
    | .ok summaryVal =>
      match mediaFetch c.id with
      | .notFound _ => go st rest nsucc (notFound ++ [c.id])
      | .fatal msg => (st, .error (.battleNetAPIError msg))
      | .ok icon =>
        if summaryVal.activeSpecId ∈ st.knownSpecs then
          go
            { st with characters := st.characters.map (fun x =>
                if x.id = c.id then
                  { x with specId := some summaryVal.activeSpecId,
                           achievementPoints := summaryVal.achievementPoints,
                           icon := icon }
                else x) }
            rest (nsucc + 1) notFound
        else
          (st, .error (.doesNotExist "PlayableSpecialization matching query does not exist"))

/-- Per-character reconciliation of sync_character_recipes (guild/jobs.py
lines 184-231): the additions loop walks the reported recipe ids against a
snapshot of the known set, adding unknown ones to the many-to-many relation
(an idempotent set add) and counting them; the removals loop erases from
the relation every known id no longer reported, counting each.  Returns
the relation after the run and the two counters. -/
def sync_character_recipes_for_character (known reported : List ℤ) :
    List ℤ × ℕ × ℕ :=
  let afterAdd := reported.foldl
    (fun (acc : List ℤ × ℕ) r =>
      if r ∈ known then acc
      else ((if r ∈ acc.1 then acc.1 else acc.1 ++ [r]), acc.2 + 1))
    (known, 0)
  let toRemove := known.filter (fun i => i ∉ reported)
  let afterRem := toRemove.foldl (fun (acc : List ℤ × ℕ) i => (acc.1.erase i, acc.2 + 1))
    (afterAdd.1, 0)
  (afterRem.1, afterAdd.2, afterRem.2)

end Guild

namespace GameData

/-- Errors a game data job run can surface: the domain error
GameDataImportError or a raw client error. -/
inductive GDError where
  | gameDataImportError (msg : String)
  | battleNetNotFound (msg : String)
  | battleNetAPIError (msg : String)
deriving DecidableEq

/-- Outcome of one client fetch. -/
inductive Fetch (α : Type) where
  | ok (val : α)
  | notFound (msg : String)
  | fatal (msg : String)

/-- Recipe payload fields used by sync_recipe: the display name and the
reagent list as (reagent id, quantity) pairs. -/
structure RecipeData where
  name : String
  reagents : List (ℤ × ℤ)
deriving DecidableEq

/-- Store slice the recipe import touches. -/
structure RStore where
  recipes : List ℤ
  reagents : List ℤ
deriving DecidableEq

/-- Summary of import_recipes_and_reagents. -/
structure RecipeSummary where
  num_recipes_added : ℕ
  num_reagents_added : ℕ
deriving DecidableEq

/-- Shallow embedding of GameDataImporter.sync_recipe (gamedata/jobs.py
lines 143-187): fetch the recipe media then the recipe, create the Recipe
row and one Reagent/RecipeReagent row per reagent.  The function installs
no handler, so a 404 or any other client failure on either fetch
propagates raw to the caller. -/
def sync_recipe (st : RStore) (mediaFetch recipeFetch : ℤ → Fetch RecipeData)
    (id : ℤ) : (RStore × ℕ × ℕ) ⊕ GDError :=
  match mediaFetch id with
  | .notFound msg => .inr (.battleNetNotFound msg)
  | .fatal msg => .inr (.battleNetAPIError msg)
  | .ok _ =>
    match recipeFetch id with
    | .notFound msg => .inr (.battleNetNotFound msg)
    | .fatal msg => .inr (.battleNetAPIError msg)
    | .ok dat =>
      let st2 : RStore :=
        { recipes := if id ∈ st.recipes then st.recipes else st.recipes ++ [id],
          reagents := dat.reagents.foldl
            (fun rs p => if p.1 ∈ rs then rs else rs ++ [p.1]) st.reagents }
      .inl (st2, 1, dat.reagents.length)

/-- Recipe loop of import_recipes_and_reagents over the recipe ids of the
categories of one skill tier (gamedata/jobs.py lines 224-239): already
known ids are skipped against the snapshot taken before the loop; every
other id goes through sync_recipe, whose failures (404 included) escape to
the per-tier handler. -/
def tierRecipeLoop (known : List ℤ) (mediaFetch recipeFetch : ℤ → Fetch RecipeData) :
    List ℤ → RStore → ℕ → ℕ → (RStore × ℕ × ℕ) ⊕ (RStore × GDError)
  | [], st, nrec, nrea => .inl (st, nrec, nrea)
  | id :: rest, st, nrec, nrea =>
    if id ∈ known then
      tierRecipeLoop known mediaFetch recipeFetch rest st nrec nrea
    else
      match sync_recipe st mediaFetch recipeFetch id with
      | .inr e => .inr (st, e)
      | .inl (st2, a, b) =>
        tierRecipeLoop known mediaFetch recipeFetch rest st2 (nrec + a) (nrea + b)

/-- Shallow embedding of GameDataImporter.import_recipes_and_reagents
(gamedata/jobs.py lines 204-246) for the run over the given skill tiers.
tierFetch yields the recipe ids of the categories of a tier.  The only
handler is per skill tier and it re-raises as GameDataImportError
(lines 242-244), so one failing per-item fetch aborts the whole run;
rows created before the failure remain (no rollback). -/
def import_recipes_and_reagents (st : RStore) (tiers : List ℤ)
    (tierFetch : ℤ → Fetch (List ℤ)) (mediaFetch recipeFetch : ℤ → Fetch RecipeData) :
    RStore × Except GDError RecipeSummary :=
  go (st.recipes) st tiers 0 0
where
  /-- Per-tier loop with the known-recipe snapshot fixed at run start. -/
  go (known : List ℤ) : RStore → List ℤ → ℕ → ℕ →
      RStore × Except GDError RecipeSummary
  | st, [], nrec, nrea => (st, .ok ⟨nrec, nrea⟩)
  | st, t :: rest, nrec, nrea =>
    match tierFetch t with
    | .notFound msg =>
      (st, .error (.gameDataImportError ("Failed to import profession recipe data: " ++ msg)))
    | .fatal msg =>
      (st, .error (.gameDataImportError ("Failed to import profession recipe data: " ++ msg)))
    | .ok recipeIds =>
      match tierRecipeLoop known mediaFetch recipeFetch recipeIds st 0 0 with
      | .inr (st2, _) =>
        (st2, .error (.gameDataImportError "Failed to import profession recipe data"))
      | .inl (st2, a, b) => go known st2 rest (nrec + a) (nrea + b)

end GameData



namespace Market

lemma foldl_min_mem (xs : List ℤ) : ∀ x : ℤ, xs.foldl min x ∈ x :: xs := by
  induction xs with
  | nil => intro x; simp
  | cons y ys ih =>
    intro x
    simp only [List.foldl_cons]
    rcases List.mem_cons.mp (ih (min x y)) with h | h
    · rcases min_choice x y with hm | hm
      · rw [h, hm]; exact List.mem_cons_self _ _
      · rw [h, hm]; exact List.mem_cons_of_mem _ (List.mem_cons_self _ _)
    · exact List.mem_cons_of_mem _ (List.mem_cons_of_mem _ h)

lemma foldl_min_le (xs : List ℤ) : ∀ x : ℤ, ∀ y ∈ x :: xs, xs.foldl min x ≤ y := by
  induction xs with
  | nil =>
    intro x y hy
    simp only [List.mem_singleton] at hy
    simp [hy]
  | cons z zs ih =>
    intro x y hy
    simp only [List.foldl_cons]
    have hhead : zs.foldl min (min x z) ≤ min x z :=
      ih (min x z) (min x z) (List.mem_cons_self _ _)
    rcases List.mem_cons.mp hy with h | h
    · subst h; exact le_trans hhead (min_le_left _ _)
    · rcases List.mem_cons.mp h with h' | h'
      · subst h'; exact le_trans hhead (min_le_right _ _)
      · exact ih (min x z) y (List.mem_cons_of_mem _ h')

lemma listMin_mem {ps : List ℤ} (h : ps ≠ []) : listMin ps ∈ ps := by
  match ps with
  | [] => exact absurd rfl h
  | x :: xs => exact foldl_min_mem xs x

lemma listMin_le {ps : List ℤ} (y : ℤ) (hy : y ∈ ps) : listMin ps ≤ y := by
  match ps with
  | [] => simp at hy
  | x :: xs => exact foldl_min_le xs x y hy

lemma eps20_pos (ps : List ℤ) : 0 < eps20 ps :=
  lt_of_lt_of_le (by norm_num) (le_max_right _ _)

lemma withinEps_refl (ps : List ℤ) (i : Fin ps.length) : withinEps ps i i := by
  unfold withinEps
  simp [le_of_lt (eps20_pos ps)]

lemma withinEps_symm {ps : List ℤ} {i j : Fin ps.length} (h : withinEps ps i j) :
    withinEps ps j i := by
  unfold withinEps at h ⊢
  rwa [abs_sub_comm]

lemma self_mem_neighbors (ps : List ℤ) (i : Fin ps.length) : i ∈ neighbors ps i := by
  unfold neighbors
  simp [withinEps_refl]

lemma core_partner {ps : List ℤ} {i : Fin ps.length} (h : isCore ps i) :
    ∃ j ∈ neighbors ps i, j ≠ i := by
  have h1 : 1 < (neighbors ps i).card := lt_of_lt_of_le (by norm_num) h
  exact Finset.exists_ne_of_one_lt_card h1 i

lemma partner_core {ps : List ℤ} {i j : Fin ps.length} (hij : j ≠ i)
    (h : j ∈ neighbors ps i) : isCore ps j := by
  have hw : withinEps ps i j := by
    unfold neighbors at h
    simpa using h
  have hi : i ∈ neighbors ps j := by
    unfold neighbors
    simp [withinEps_symm hw]
  have hj : j ∈ neighbors ps j := self_mem_neighbors ps j
  have hsub : ({i, j} : Finset (Fin ps.length)) ⊆ neighbors ps j := by
    intro x hx
    rcases Finset.mem_insert.mp hx with h' | h'
    · exact h' ▸ hi
    · exact (Finset.mem_singleton.mp h') ▸ hj
  have : ({i, j} : Finset (Fin ps.length)).card = 2 := Finset.card_pair (Ne.symm hij)
  calc (2 : ℕ) = ({i, j} : Finset (Fin ps.length)).card := this.symm
    _ ≤ (neighbors ps j).card := Finset.card_le_card hsub

lemma subset_expandOnce (ps : List ℤ) (s : Finset (Fin ps.length)) :
    s ⊆ expandOnce ps s :=
  Finset.subset_union_left

lemma subset_iterate_expandOnce (ps : List ℤ) (s : Finset (Fin ps.length)) :
    ∀ n, s ⊆ (expandOnce ps)^[n] s := by
  intro n
  induction n generalizing s with
  | zero => simp
  | succ m ih =>
    rw [Function.iterate_succ_apply]
    exact (subset_expandOnce ps s).trans (ih (expandOnce ps s))

lemma mem_component_self (ps : List ℤ) (i : Fin ps.length) : i ∈ component ps i :=
  subset_iterate_expandOnce ps {i} ps.length (Finset.mem_singleton_self i)

lemma expandOnce_core {ps : List ℤ} {s : Finset (Fin ps.length)}
    (hs : ∀ x ∈ s, isCore ps x) : ∀ x ∈ expandOnce ps s, isCore ps x := by
  intro x hx
  rcases Finset.mem_union.mp hx with h | h
  · exact hs x h
  · exact (Finset.mem_filter.mp h).2.1

lemma iterate_expandOnce_core {ps : List ℤ} :
    ∀ (n : ℕ) (s : Finset (Fin ps.length)),
    (∀ x ∈ s, isCore ps x) → ∀ x ∈ (expandOnce ps)^[n] s, isCore ps x := by
  intro n
  induction n with
  | zero =>
    intro s hs
    simpa using hs
  | succ m ih =>
    intro s hs
    rw [Function.iterate_succ_apply]
    exact ih _ (expandOnce_core hs)

lemma component_core {ps : List ℤ} {i : Fin ps.length} (hi : isCore ps i) :
    ∀ x ∈ component ps i, isCore ps x := by
  unfold component
  refine iterate_expandOnce_core _ _ ?_
  intro x hx
  rwa [Finset.mem_singleton.mp hx]

lemma two_le_card_component {ps : List ℤ} {i : Fin ps.length}
    (hi : isCore ps i) (hn : 1 ≤ ps.length) : 2 ≤ (component ps i).card := by
  obtain ⟨j, hjmem, hji⟩ := core_partner hi
  have hjcore : isCore ps j := partner_core hji hjmem
  have hw : withinEps ps i j := by
    unfold neighbors at hjmem
    simpa using hjmem
  have hj1 : j ∈ expandOnce ps {i} := by
    unfold expandOnce
    refine Finset.mem_union_right _ (Finset.mem_filter.mpr ⟨Finset.mem_univ j, hjcore, ?_⟩)
    exact ⟨i, Finset.mem_singleton_self i, hi, hw⟩
  have hiter : ∀ n : ℕ, 1 ≤ n → j ∈ (expandOnce ps)^[n] ({i} : Finset (Fin ps.length)) := by
    intro n hn1
    match n, hn1 with
    | (m + 1), _ =>
      rw [Function.iterate_succ_apply]
      exact subset_iterate_expandOnce ps _ m hj1
  have hjc : j ∈ component ps i := hiter ps.length hn
  have hsub : ({i, j} : Finset (Fin ps.length)) ⊆ component ps i := by
    intro x hx
    rcases Finset.mem_insert.mp hx with h' | h'
    · exact h' ▸ mem_component_self ps i
    · exact (Finset.mem_singleton.mp h') ▸ hjc
  calc (2 : ℕ) = ({i, j} : Finset (Fin ps.length)).card := (Finset.card_pair (Ne.symm hji)).symm
    _ ≤ (component ps i).card := Finset.card_le_card hsub

lemma clusterList_invariant (ps : List ℤ) (P : Finset (Fin ps.length) → Prop)
    (hP : ∀ i : Fin ps.length, isCore ps i → P (component ps i)) :
    ∀ C ∈ clusterList ps, P C := by
  unfold clusterList
  have aux : ∀ (l : List (Fin ps.length)) (acc : List (Finset (Fin ps.length))),
      (∀ C ∈ acc, P C) →
      ∀ C ∈ l.foldl
        (fun acc i => if isCore ps i ∧ ∀ C ∈ acc, i ∉ C then acc ++ [component ps i] else acc)
        acc, P C := by
    intro l
    induction l with
    | nil => exact fun acc h => h
    | cons i t ih =>
      intro acc hacc
      simp only [List.foldl_cons]
      refine ih _ ?_
      by_cases h : isCore ps i ∧ ∀ C ∈ acc, i ∉ C
      · rw [if_pos h]
        intro D hD
        rcases List.mem_append.mp hD with h' | h'
        · exact hacc D h'
        · rw [List.mem_singleton.mp h']
          exact hP i h.1
      · rw [if_neg h]
        exact hacc
  exact aux _ [] (by simp)

lemma clusterList_shape (ps : List ℤ) :
    ∀ C ∈ clusterList ps, ∃ i : Fin ps.length, isCore ps i ∧ C = component ps i :=
  clusterList_invariant ps _ (fun i hi => ⟨i, hi, rfl⟩)

lemma clusterList_card {ps : List ℤ} (hn : 1 ≤ ps.length) :
    ∀ C ∈ clusterList ps, 2 ≤ C.card := by
  intro C hC
  obtain ⟨i, hi, rfl⟩ := clusterList_shape ps C hC
  exact two_le_card_component hi hn

lemma clusterList_all_core (ps : List ℤ) :
    ∀ C ∈ clusterList ps, ∀ j ∈ C, isCore ps j := by
  intro C hC
  obtain ⟨i, hi, rfl⟩ := clusterList_shape ps C hC
  exact component_core hi

lemma meanLt_iff {ps : List ℤ} {C D : Finset (Fin ps.length)}
    (hC : 0 < C.card) (hD : 0 < D.card) :
    meanLt ps C D ↔ clusterMean ps C < clusterMean ps D := by
  unfold meanLt clusterMean
  rw [div_lt_div_iff₀ (by exact_mod_cast hC) (by exact_mod_cast hD)]
  exact_mod_cast Iff.rfl

lemma fold_best_spec (ps : List ℤ) :
    ∀ (rest : List (Finset (Fin ps.length))) (c : Finset (Fin ps.length)),
    (∀ D ∈ c :: rest, 0 < D.card) →
    (rest.foldl (fun b d => if meanLt ps d b then d else b) c) ∈ c :: rest ∧
    ∀ D ∈ c :: rest,
      clusterMean ps (rest.foldl (fun b d => if meanLt ps d b then d else b) c) ≤
        clusterMean ps D := by
  intro rest
  induction rest with
  | nil =>
    intro c _
    constructor
    · simp
    · intro D hD
      rw [List.mem_singleton.mp hD, List.foldl_nil]
  | cons d t ih =>
    intro c hpos
    have hc : 0 < c.card := hpos c (List.mem_cons_self _ _)
    have hd : 0 < d.card := hpos d (List.mem_cons_of_mem _ (List.mem_cons_self _ _))
    have htpos : ∀ D ∈ t, 0 < D.card := fun D hD =>
      hpos D (List.mem_cons_of_mem _ (List.mem_cons_of_mem _ hD))
    by_cases hlt : meanLt ps d c
    · have hstep : (d :: t).foldl (fun b e => if meanLt ps e b then e else b) c
          = t.foldl (fun b e => if meanLt ps e b then e else b) d := by
        simp only [List.foldl_cons]
        rw [if_pos hlt]
      obtain ⟨hmem, hbnd⟩ := ih d (by
        intro D hD
        rcases List.mem_cons.mp hD with h | h
        · rw [h]; exact hd
        · exact htpos D h)
      rw [hstep]
      constructor
      · rcases List.mem_cons.mp hmem with h | h
        · rw [h]; exact List.mem_cons_of_mem _ (List.mem_cons_self _ _)
        · exact List.mem_cons_of_mem _ (List.mem_cons_of_mem _ h)
      · intro D hD
        rcases List.mem_cons.mp hD with h | h
        · rw [h]
          exact le_trans (hbnd d (List.mem_cons_self _ _))
            (le_of_lt ((meanLt_iff hd hc).mp hlt))
        · exact hbnd D h
    · have hstep : (d :: t).foldl (fun b e => if meanLt ps e b then e else b) c
          = t.foldl (fun b e => if meanLt ps e b then e else b) c := by
        simp only [List.foldl_cons]
        rw [if_neg hlt]
      obtain ⟨hmem, hbnd⟩ := ih c (by
        intro D hD
        rcases List.mem_cons.mp hD with h | h
        · rw [h]; exact hc
        · exact htpos D h)
      rw [hstep]
      constructor
      · rcases List.mem_cons.mp hmem with h | h
        · rw [h]; exact List.mem_cons_self _ _
        · exact List.mem_cons_of_mem _ (List.mem_cons_of_mem _ h)
      · intro D hD
        rcases List.mem_cons.mp hD with h | h
        · rw [h]
          exact hbnd c (List.mem_cons_self _ _)
        · rcases List.mem_cons.mp h with h2 | h2
          · rw [h2]
            refine le_trans (hbnd c (List.mem_cons_self _ _)) ?_
            exact le_of_not_lt fun hcon => hlt ((meanLt_iff hd hc).mpr hcon)
          · exact hbnd D (List.mem_cons_of_mem _ h2)


lemma clusterMinPrice_spec {ps : List ℤ} {C : Finset (Fin ps.length)}
    (h : C.Nonempty) :
    (∃ j ∈ C, ps.get j = clusterMinPrice ps C) ∧
    ∀ j ∈ C, clusterMinPrice ps C ≤ ps.get j := by
  obtain ⟨j0, hj0⟩ := h
  have hlne : (((List.finRange ps.length).filter (· ∈ C)).map (ps.get)) ≠ [] := by
    have : j0 ∈ (List.finRange ps.length).filter (· ∈ C) := by
      rw [List.mem_filter]
      exact ⟨List.mem_finRange j0, by simpa using hj0⟩
    intro hcon
    have := List.mem_map_of_mem ps.get this
    rw [hcon] at this
    simp at this
  constructor
  · have hmem : clusterMinPrice ps C ∈
        ((List.finRange ps.length).filter (· ∈ C)).map (ps.get) :=
      listMin_mem hlne
    obtain ⟨j, hj, hje⟩ := List.mem_map.mp hmem
    refine ⟨j, ?_, hje⟩
    rw [List.mem_filter] at hj
    simpa using hj.2
  · intro j hj
    refine listMin_le (ps.get j) ?_
    refine List.mem_map_of_mem ps.get ?_
    rw [List.mem_filter]
    exact ⟨List.mem_finRange j, by simpa using hj⟩

end Market

namespace Market

lemma calculate_eq_of_clusters {ps : List ℤ} (h3 : 3 ≤ ps.length)
    {c : Finset (Fin ps.length)} {rest : List (Finset (Fin ps.length))}
    (hl : clusterList ps = c :: rest) :
    calculate_market_price ps =
      clusterMinPrice ps (rest.foldl (fun b d => if meanLt ps d b then d else b) c) := by
  have hne : ps ≠ [] := by
    intro h
    rw [h] at h3
    simp at h3
  have hnlt : ¬ ps.length < 3 := not_lt.mpr h3
  have hbest : bestCluster ps =
      some (rest.foldl (fun b d => if meanLt ps d b then d else b) c) := by
    unfold bestCluster
    rw [hl]
  unfold calculate_market_price
  rw [if_neg hne, if_neg hnlt, hbest]

end Market

/-- C1: for every list of at least 3 prices, calculate_market_price clusters
the prices with the DBSCAN parameters of the source (radius
max(5 percent of the range, the fixed floor 1000), a cluster needs at least 2
points inside a neighborhood, non-core points are noise and belong to no
cluster), and whenever at least one cluster exists the result is the minimum
price within a cluster of lowest mean price; on [100, 102, 101, 5000] the
result is 100, a member of the low-price cluster, and not 5000. -/
theorem C1_market_price_is_min_of_lowest_mean_cluster :
    (∀ ps : List ℤ, 3 ≤ ps.length → Market.clusterList ps ≠ [] →
      ∃ C ∈ Market.clusterList ps,
        (∀ D ∈ Market.clusterList ps, Market.clusterMean ps C ≤ Market.clusterMean ps D) ∧
        Market.calculate_market_price ps = Market.clusterMinPrice ps C ∧
        (∃ j ∈ C, ps.get j = Market.clusterMinPrice ps C) ∧
        (∀ j ∈ C, Market.clusterMinPrice ps C ≤ ps.get j) ∧
        2 ≤ C.card ∧
        (∀ j ∈ C, Market.isCore ps j)) ∧
    Market.calculate_market_price [100, 102, 101, 5000] = 100 ∧
    (100 : ℤ) ≠ 5000 := by
  refine ⟨?_, by decide, by decide⟩
  intro ps h3 hcl
  obtain ⟨c, rest, hl⟩ : ∃ c rest, Market.clusterList ps = c :: rest := by
    cases hx : Market.clusterList ps with
    | nil => exact absurd hx hcl
    | cons c rest => exact ⟨c, rest, rfl⟩
  have hn1 : 1 ≤ ps.length := le_trans (by norm_num) h3
  have hpos : ∀ D ∈ c :: rest, 0 < D.card := by
    intro D hD
    have h2 := Market.clusterList_card hn1 D (by rw [hl]; exact hD)
    omega
  obtain ⟨hmem, hbnd⟩ := Market.fold_best_spec ps rest c hpos
  have hrmem : (rest.foldl (fun b d => if Market.meanLt ps d b then d else b) c) ∈
      Market.clusterList ps := by
    rw [hl]; exact hmem
  have hcard2 := Market.clusterList_card hn1 _ hrmem
  have hrne : (rest.foldl (fun b d => if Market.meanLt ps d b then d else b) c).Nonempty :=
    Finset.card_pos.mp (by omega)
  obtain ⟨hminmem, hminle⟩ := Market.clusterMinPrice_spec hrne
  refine ⟨_, hrmem, ?_, Market.calculate_eq_of_clusters h3 hl, hminmem, hminle, hcard2,
    Market.clusterList_all_core ps _ hrmem⟩
  intro D hD
  exact hbnd D (by rwa [hl] at hD)

/-- C1 witness: the theorem instantiated at the concrete price list
[100, 102, 101, 5000], whose hypotheses hold by computation. -/
theorem C1_market_price_witness :
    (3 ≤ ([100, 102, 101, 5000] : List ℤ).length) ∧
    (Market.clusterList [100, 102, 101, 5000] ≠ []) ∧
    ∃ C ∈ Market.clusterList [100, 102, 101, 5000],
      (∀ D ∈ Market.clusterList [100, 102, 101, 5000],
        Market.clusterMean [100, 102, 101, 5000] C ≤ Market.clusterMean [100, 102, 101, 5000] D) ∧
      Market.calculate_market_price [100, 102, 101, 5000] =
        Market.clusterMinPrice [100, 102, 101, 5000] C ∧
      (∃ j ∈ C, ([100, 102, 101, 5000] : List ℤ).get j =
        Market.clusterMinPrice [100, 102, 101, 5000] C) ∧
      (∀ j ∈ C, Market.clusterMinPrice [100, 102, 101, 5000] C ≤
        ([100, 102, 101, 5000] : List ℤ).get j) ∧
      2 ≤ C.card ∧
      (∀ j ∈ C, Market.isCore [100, 102, 101, 5000] j) :=
  ⟨by decide, by decide,
    C1_market_price_is_min_of_lowest_mean_cluster.1 [100, 102, 101, 5000] (by decide) (by decide)⟩

/-- C6: the market price resolver is a total function: the empty list maps
to 0, and every nonempty list of fewer than 3 prices maps to its minimum
price, which is a member of the list and a lower bound of it; in particular
resolve([p]) = p and resolve([5, 7]) = 5. -/
theorem C6_resolver_degenerate_cases :
    Market.calculate_market_price [] = 0 ∧
    (∀ p : ℤ, Market.calculate_market_price [p] = p) ∧
    (∀ p q : ℤ, Market.calculate_market_price [p, q] = min p q) ∧
    Market.calculate_market_price [5, 7] = 5 ∧
    (∀ ps : List ℤ, ps ≠ [] → ps.length < 3 →
      Market.calculate_market_price ps = Market.listMin ps ∧
      Market.listMin ps ∈ ps ∧ ∀ x ∈ ps, Market.listMin ps ≤ x) := by
  refine ⟨rfl, fun p => rfl, fun p q => rfl, by decide, ?_⟩
  intro ps hne hlt
  refine ⟨?_, Market.listMin_mem hne, fun x hx => Market.listMin_le x hx⟩
  unfold Market.calculate_market_price
  rw [if_neg hne, if_pos hlt]

/-- C6 witness: the theorem instantiated at the concrete two-element list
[5, 7], whose hypotheses hold by computation. -/
theorem C6_resolver_witness :
    (([5, 7] : List ℤ) ≠ [] ∧ ([5, 7] : List ℤ).length < 3) ∧
    (Market.calculate_market_price [5, 7] = Market.listMin [5, 7] ∧
     Market.listMin [5, 7] ∈ ([5, 7] : List ℤ) ∧
     ∀ x ∈ ([5, 7] : List ℤ), Market.listMin [5, 7] ≤ x) :=
  ⟨⟨by decide, by decide⟩,
    C6_resolver_degenerate_cases.2.2.2.2 [5, 7] (by decide) (by decide)⟩

namespace JsonCanon

theorem entriesToList_entriesOfList : ∀ l : List (String × Json),
    entriesToList (entriesOfList l) = l
  | [] => rfl
  | (k, v) :: t => by
      simp only [entriesOfList, entriesToList]
      rw [entriesToList_entriesOfList t]

theorem entriesToList_canonObj : ∀ e : JsonObj,
    entriesToList (canonObj e) = (entriesToList e).map (fun kv => (kv.1, canon kv.2))
  | .nil => rfl
  | .cons k v t => by
      simp only [canonObj, entriesToList, List.map_cons]
      rw [entriesToList_canonObj t]

lemma map_fst_map_canon (l : List (String × Json)) :
    ((l.map (fun kv => (kv.1, canon kv.2))).map Prod.fst) = l.map Prod.fst := by
  rw [List.map_map]
  rfl

lemma insertionSort_eq_of_perm {l₁ l₂ : List (String × Json)} (hp : l₁.Perm l₂)
    (hnd : (l₁.map Prod.fst).Nodup) :
    List.insertionSort keyLe l₁ = List.insertionSort keyLe l₂ := by
  have s₁ := List.sorted_insertionSort keyLe l₁
  have s₂ := List.sorted_insertionSort keyLe l₂
  have p₁ := List.perm_insertionSort keyLe l₁
  have p₂ := List.perm_insertionSort keyLe l₂
  have hp2 : (List.insertionSort keyLe l₁).Perm (List.insertionSort keyLe l₂) :=
    p₁.trans (hp.trans p₂.symm)
  have hnd₁ : ((List.insertionSort keyLe l₁).map Prod.fst).Nodup :=
    ((p₁.map Prod.fst).nodup_iff).mpr hnd
  have hnd₂ : ((List.insertionSort keyLe l₂).map Prod.fst).Nodup :=
    ((hp2.map Prod.fst).nodup_iff).mp hnd₁
  have pw₁ : List.Pairwise (fun a b : String × Json => a.1 ≠ b.1)
      (List.insertionSort keyLe l₁) := List.pairwise_map.mp hnd₁
  have pw₂ : List.Pairwise (fun a b : String × Json => a.1 ≠ b.1)
      (List.insertionSort keyLe l₂) := List.pairwise_map.mp hnd₂
  have s₁' : List.Pairwise (fun a b : String × Json => a.1 < b.1)
      (List.insertionSort keyLe l₁) :=
    (s₁.and pw₁).imp (fun h => lt_of_le_of_ne h.1 h.2)
  have s₂' : List.Pairwise (fun a b : String × Json => a.1 < b.1)
      (List.insertionSort keyLe l₂) :=
    (s₂.and pw₂).imp (fun h => lt_of_le_of_ne h.1 h.2)
  haveI : IsAntisymm (String × Json) (fun a b => a.1 < b.1) :=
    ⟨fun a b h h2 => absurd h2 (lt_asymm h)⟩
  exact List.eq_of_perm_of_sorted hp2 s₁' s₂'

theorem keys_mapObjsObj (f : List (String × Json) → List (String × Json)) :
    ∀ e : JsonObj,
    (entriesToList (mapObjsObj f e)).map Prod.fst = (entriesToList e).map Prod.fst
  | .nil => rfl
  | .cons k v t => by
      simp only [mapObjsObj, entriesToList, List.map_cons]
      rw [keys_mapObjsObj f t]

mutual
theorem canon_mapObjs (f : List (String × Json) → List (String × Json))
    (hf : ∀ l, (f l).Perm l) :
    ∀ P : Json, wellFormedB P = true → canon (mapObjs f P) = canon P
  | .null, _ => rfl
  | .bool _, _ => rfl
  | .num _, _ => rfl
  | .str _, _ => rfl
  | .arr xs, h => congrArg Json.arr (canonArr_mapObjs f hf xs h)
  | .obj e, h => by
      have h2 := (Bool.and_eq_true _ _).mp h
      have hnodup : ((entriesToList e).map Prod.fst).Nodup := of_decide_eq_true h2.1
      have hrec : canonObj (mapObjsObj f e) = canonObj e := canonObj_mapObjs f hf e h2.2
      show Json.obj (sortEntries (canonObj (entriesOfList
          (f (entriesToList (mapObjsObj f e)))))) = Json.obj (sortEntries (canonObj e))
      refine congrArg Json.obj ?_
      unfold sortEntries
      refine congrArg entriesOfList ?_
      refine insertionSort_eq_of_perm ?_ ?_
      · have e1 : entriesToList (canonObj (entriesOfList (f (entriesToList (mapObjsObj f e)))))
            = (f (entriesToList (mapObjsObj f e))).map (fun kv => (kv.1, canon kv.2)) := by
          rw [entriesToList_canonObj, entriesToList_entriesOfList]
        have e2 : (entriesToList (mapObjsObj f e)).map (fun kv => (kv.1, canon kv.2))
            = entriesToList (canonObj e) := by
          rw [← entriesToList_canonObj, hrec]
        rw [e1, ← e2]
        exact (hf _).map _
      · rw [entriesToList_canonObj, entriesToList_entriesOfList, map_fst_map_canon]
        have hkeys : (f (entriesToList (mapObjsObj f e))).map Prod.fst
            |>.Perm ((entriesToList (mapObjsObj f e)).map Prod.fst) := (hf _).map _
        rw [hkeys.nodup_iff]
        rw [keys_mapObjsObj f e]
        exact hnodup
theorem canonArr_mapObjs (f : List (String × Json) → List (String × Json))
    (hf : ∀ l, (f l).Perm l) :
    ∀ xs : JsonArr, wellFormedArrB xs = true → canonArr (mapObjsArr f xs) = canonArr xs
  | .nil, _ => rfl
  | .cons x t, h => by
      have h2 := (Bool.and_eq_true _ _).mp h
      show JsonArr.cons (canon (mapObjs f x)) (canonArr (mapObjsArr f t)) =
        JsonArr.cons (canon x) (canonArr t)
      rw [canon_mapObjs f hf x h2.1, canonArr_mapObjs f hf t h2.2]
theorem canonObj_mapObjs (f : List (String × Json) → List (String × Json))
    (hf : ∀ l, (f l).Perm l) :
    ∀ e : JsonObj, wellFormedObjB e = true → canonObj (mapObjsObj f e) = canonObj e
  | .nil, _ => rfl
  | .cons k v t, h => by
      have h2 := (Bool.and_eq_true _ _).mp h
      show JsonObj.cons k (canon (mapObjs f v)) (canonObj (mapObjsObj f t)) =
        JsonObj.cons k (canon v) (canonObj t)
      rw [canon_mapObjs f hf v h2.1, canonObj_mapObjs f hf t h2.2]
end

end JsonCanon

/-- C7: the origin fingerprint is a function of the payload content only and
is invariant under reordering of object keys: for every hash function H,
every key rearrangement f (one that permutes the entry list at each object
level) and every well-formed payload P, the fingerprint of the reordered
payload equals the fingerprint of P, because the payload is canonicalized
(keys sorted recursively) before hashing. -/
theorem C7_fingerprint_key_order_invariant :
    ∀ (H : String → String)
      (f : List (String × JsonCanon.Json) → List (String × JsonCanon.Json)),
      (∀ l, (f l).Perm l) →
      ∀ P : JsonCanon.Json, JsonCanon.wellFormedB P = true →
        JsonCanon.fingerprint H (JsonCanon.mapObjs f P) = JsonCanon.fingerprint H P := by
  intro H f hf P hP
  unfold JsonCanon.fingerprint JsonCanon.canonicalString
  rw [JsonCanon.canon_mapObjs f hf P hP]

/-- C7 witness: the theorem instantiated with the identity hash, entry-list
reversal as the reordering, and a concrete two-level payload. -/
theorem C7_fingerprint_witness :
    (∀ l : List (String × JsonCanon.Json), (List.reverse l).Perm l) ∧
    JsonCanon.wellFormedB
      (JsonCanon.Json.obj (JsonCanon.JsonObj.cons "b" (JsonCanon.Json.num 1)
        (JsonCanon.JsonObj.cons "a"
          (JsonCanon.Json.obj (JsonCanon.JsonObj.cons "y" (JsonCanon.Json.str "s")
            (JsonCanon.JsonObj.cons "x" (JsonCanon.Json.num 2) JsonCanon.JsonObj.nil)))
          JsonCanon.JsonObj.nil))) = true ∧
    JsonCanon.fingerprint id (JsonCanon.mapObjs List.reverse
      (JsonCanon.Json.obj (JsonCanon.JsonObj.cons "b" (JsonCanon.Json.num 1)
        (JsonCanon.JsonObj.cons "a"
          (JsonCanon.Json.obj (JsonCanon.JsonObj.cons "y" (JsonCanon.Json.str "s")
            (JsonCanon.JsonObj.cons "x" (JsonCanon.Json.num 2) JsonCanon.JsonObj.nil)))
          JsonCanon.JsonObj.nil)))) =
    JsonCanon.fingerprint id
      (JsonCanon.Json.obj (JsonCanon.JsonObj.cons "b" (JsonCanon.Json.num 1)
        (JsonCanon.JsonObj.cons "a"
          (JsonCanon.Json.obj (JsonCanon.JsonObj.cons "y" (JsonCanon.Json.str "s")
            (JsonCanon.JsonObj.cons "x" (JsonCanon.Json.num 2) JsonCanon.JsonObj.nil)))
          JsonCanon.JsonObj.nil))) :=
  ⟨fun l => List.reverse_perm l, by decide,
    C7_fingerprint_key_order_invariant id List.reverse (fun l => List.reverse_perm l) _
      (by decide)⟩

namespace BNet

lemma attemptsFrom_succ (resp : ℕ → Attempt) (k remaining : ℕ) :
    attemptsFrom resp k (remaining + 1) =
      match resp k with
      | .ok body => ([], 1, .json body)
      | .httpError status text =>
        if status ∈ RETRY_STATUS_CODES then
          if k < MAX_RETRIES - 1 then
            (waitTime k :: (attemptsFrom resp (k + 1) remaining).1,
             (attemptsFrom resp (k + 1) remaining).2.1 + 1,
             (attemptsFrom resp (k + 1) remaining).2.2)
          else
            ([], 1, .noneResult)
        else if status ∈ NOT_FOUND_STATUS_CODES then
          ([], 1, .notFoundError text)
        else
          ([], 1, .apiError text)
      | .requestFailure msg => ([], 1, .apiError msg) := rfl

lemma attemptsFrom_retry_step {resp : ℕ → Attempt} {k s : ℕ} {t : String}
    (remaining : ℕ) (hr : resp k = .httpError s t) (hs : s ∈ RETRY_STATUS_CODES)
    (hk : k < MAX_RETRIES - 1) :
    attemptsFrom resp k (remaining + 1) =
      (waitTime k :: (attemptsFrom resp (k + 1) remaining).1,
       (attemptsFrom resp (k + 1) remaining).2.1 + 1,
       (attemptsFrom resp (k + 1) remaining).2.2) := by
  rw [attemptsFrom_succ, hr]
  simp only [if_pos hs, if_pos hk]

lemma attemptsFrom_retry_last {resp : ℕ → Attempt} {k s : ℕ} {t : String}
    (remaining : ℕ) (hr : resp k = .httpError s t) (hs : s ∈ RETRY_STATUS_CODES)
    (hk : ¬ k < MAX_RETRIES - 1) :
    attemptsFrom resp k (remaining + 1) = ([], 1, .noneResult) := by
  rw [attemptsFrom_succ, hr]
  simp only [if_pos hs, if_neg hk]

end BNet

/-- C4: when every attempt of a request receives a transient status code the
client makes exactly MAX_RETRIES = 3 attempts, sleeping strictly increasing
pre-jitter backoff durations 1 and 2 seconds between consecutive attempts
(base 1 second doubled per attempt index, plus a random jitter of at most a
tenth of the wait on top), but after the final failed attempt the loop
falls through and the caller receives the implicit Python None instead of a
raised BattleNetAPIError, contradicting the docstring of _make_request. -/
theorem C4_retry_exhaustion_returns_none :
    (∀ resp : ℕ → BNet.Attempt,
      (∀ k, ∃ s ∈ BNet.RETRY_STATUS_CODES, ∃ t, resp k = BNet.Attempt.httpError s t) →
      BNet.make_request resp = ([1, 2], 3, BNet.RequestResult.noneResult)) ∧
    BNet.make_request (fun _ => BNet.Attempt.httpError 429 "Too Many Requests")
      = ([1, 2], 3, BNet.RequestResult.noneResult) ∧
    List.Chain' (· < ·) [1, 2] ∧
    (∀ msg, BNet.RequestResult.noneResult ≠ BNet.RequestResult.apiError msg) := by
  refine ⟨?_, by decide, by simp, fun msg => by simp⟩
  intro resp h
  obtain ⟨s0, hs0, t0, h0⟩ := h 0
  obtain ⟨s1, hs1, t1, h1⟩ := h 1
  obtain ⟨s2, hs2, t2, h2⟩ := h 2
  have e2 : BNet.attemptsFrom resp 2 1 = ([], 1, BNet.RequestResult.noneResult) :=
    BNet.attemptsFrom_retry_last 0 h2 hs2 (by norm_num [BNet.MAX_RETRIES])
  have e1 : BNet.attemptsFrom resp 1 2 = ([2], 2, BNet.RequestResult.noneResult) := by
    rw [BNet.attemptsFrom_retry_step 1 h1 hs1 (by norm_num [BNet.MAX_RETRIES]), e2]
    norm_num [BNet.waitTime, BNet.BASE_BACKOFF_SECONDS]
  have e0 : BNet.attemptsFrom resp 0 3 = ([1, 2], 3, BNet.RequestResult.noneResult) := by
    rw [BNet.attemptsFrom_retry_step 2 h0 hs0 (by norm_num [BNet.MAX_RETRIES]), e1]
    norm_num [BNet.waitTime, BNet.BASE_BACKOFF_SECONDS]
  exact e0

/-- C4 witness: the theorem instantiated with a client that always answers
502, with the transient-status hypothesis discharged explicitly. -/
theorem C4_retry_witness :
    BNet.make_request (fun _ => BNet.Attempt.httpError 502 "Bad Gateway")
      = ([1, 2], 3, BNet.RequestResult.noneResult) :=
  C4_retry_exhaustion_returns_none.1 (fun _ => BNet.Attempt.httpError 502 "Bad Gateway")
    (fun _ => ⟨502, by decide, "Bad Gateway", rfl⟩)

namespace AH

/-- Item id i is settled in store st for a given origin: either a price
result row with the (i, origin) pair exists, or the item fetch 404s and no
Item row for i exists, so the importer passes over i without writing. -/
def settled (origin : String) (lookup : ℤ → Option ItemInfo) (st : Store) (i : ℤ) : Prop :=
  (∃ c ∈ st.commodities, c.item = i ∧ c.origin = origin) ∨ (lookup i = none ∧ i ∉ st.items)

lemma processItem_items_subset (origin : String) (lookup : ℤ → Option ItemInfo)
    (metrics : ℤ → Metrics) (EC EI : List ℤ) (acc : Store × Summary) (i : ℤ) :
    ∀ x ∈ (processItem origin lookup metrics EC EI acc i).1.items,
      x ∈ acc.1.items ∨ x = i := by
  intro x hx
  unfold processItem at hx
  split at hx
  · exact Or.inl hx
  · split at hx
    · revert hx
      match lookup i with
      | none => exact fun hx => Or.inl hx
      | some _ =>
        intro hx
        simp only [List.mem_append, List.mem_singleton] at hx
        exact hx
    · exact Or.inl hx

lemma processItem_commodities_mono (origin : String) (lookup : ℤ → Option ItemInfo)
    (metrics : ℤ → Metrics) (EC EI : List ℤ) (acc : Store × Summary) (i : ℤ) :
    ∀ c ∈ acc.1.commodities, c ∈ (processItem origin lookup metrics EC EI acc i).1.commodities := by
  intro c hc
  unfold processItem
  split
  · exact hc
  · split
    · match lookup i with
      | none => exact hc
      | some _ => exact List.mem_append_left _ hc
    · exact List.mem_append_left _ hc

lemma run_items_subset (origin : String) (lookup : ℤ → Option ItemInfo)
    (metrics : ℤ → Metrics) (EC EI : List ℤ) :
    ∀ (l : List ℤ) (acc : Store × Summary),
    ∀ x ∈ (l.foldl (processItem origin lookup metrics EC EI) acc).1.items,
      x ∈ acc.1.items ∨ x ∈ l := by
  intro l
  induction l with
  | nil => intro acc x hx; exact Or.inl hx
  | cons i rest ih =>
    intro acc x hx
    simp only [List.foldl_cons] at hx
    rcases ih _ x hx with h | h
    · rcases processItem_items_subset origin lookup metrics EC EI acc i x h with h2 | h2
      · exact Or.inl h2
      · exact Or.inr (h2 ▸ List.mem_cons_self _ _)
    · exact Or.inr (List.mem_cons_of_mem _ h)

lemma run_commodities_mono (origin : String) (lookup : ℤ → Option ItemInfo)
    (metrics : ℤ → Metrics) (EC EI : List ℤ) :
    ∀ (l : List ℤ) (acc : Store × Summary),
    ∀ c ∈ acc.1.commodities,
      c ∈ (l.foldl (processItem origin lookup metrics EC EI) acc).1.commodities := by
  intro l
  induction l with
  | nil => intro acc c hc; exact hc
  | cons i rest ih =>
    intro acc c hc
    simp only [List.foldl_cons]
    exact ih _ c (processItem_commodities_mono origin lookup metrics EC EI acc i c hc)

lemma run_settles (origin : String) (lookup : ℤ → Option ItemInfo)
    (metrics : ℤ → Metrics) (EC : List ℤ) (EI : List ℤ) :
    ∀ (l : List ℤ) (acc : Store × Summary),
    (∀ i ∈ EC, ∃ c ∈ acc.1.commodities, c.item = i ∧ c.origin = origin) →
    (∀ x ∈ acc.1.items, x ∈ EI ∨ x ∉ l) →
    l.Nodup →
    ∀ i ∈ l, settled origin lookup
      ((l.foldl (processItem origin lookup metrics EC EI) acc)).1 i := by
  intro l
  induction l with
  | nil => intro acc _ _ _ i hi; simp at hi
  | cons i0 rest ih =>
    intro acc hEC hitems hnd i hi
    have hnd' := List.nodup_cons.mp hnd
    simp only [List.foldl_cons]
    have hitems' : ∀ x ∈ (processItem origin lookup metrics EC EI acc i0).1.items,
        x ∈ EI ∨ x ∉ rest := by
      intro x hx
      rcases processItem_items_subset origin lookup metrics EC EI acc i0 x hx with h | h
      · rcases hitems x h with h2 | h2
        · exact Or.inl h2
        · exact Or.inr (fun hmem => h2 (List.mem_cons_of_mem _ hmem))
      · exact Or.inr (h ▸ hnd'.1)
    have hEC' : ∀ j ∈ EC, ∃ c ∈ (processItem origin lookup metrics EC EI acc i0).1.commodities,
        c.item = j ∧ c.origin = origin := by
      intro j hj
      obtain ⟨c, hc, hcj⟩ := hEC j hj
      exact ⟨c, processItem_commodities_mono origin lookup metrics EC EI acc i0 c hc, hcj⟩
    rcases List.mem_cons.mp hi with rfl | hi'
    · -- the processed element itself becomes settled and stays settled
      by_cases hc : i ∈ EC
      · obtain ⟨c, hcm, hcp⟩ := hEC' i hc
        exact Or.inl ⟨c, run_commodities_mono origin lookup metrics EC EI rest _ c hcm, hcp⟩
      · by_cases hei : i ∈ EI
        · -- create branch for an already known item
          have hrow : (⟨i, (metrics i).totalQuantity, (metrics i).marketPrice, origin⟩ :
              CommodityRow) ∈ (processItem origin lookup metrics EC EI acc i).1.commodities := by
            unfold processItem
            rw [if_neg hc, if_neg (by simpa using hei)]
            exact List.mem_append_right _ (List.mem_singleton_self _)
          exact Or.inl ⟨_, run_commodities_mono origin lookup metrics EC EI rest _ _ hrow,
            rfl, rfl⟩
        · match hlk : lookup i with
          | some info =>
            have hrow : (⟨i, (metrics i).totalQuantity, (metrics i).marketPrice, origin⟩ :
                CommodityRow) ∈ (processItem origin lookup metrics EC EI acc i).1.commodities := by
              unfold processItem
              rw [if_neg hc, if_pos (by simpa using hei), hlk]
              exact List.mem_append_right _ (List.mem_singleton_self _)
            exact Or.inl ⟨_, run_commodities_mono origin lookup metrics EC EI rest _ _ hrow,
              rfl, rfl⟩
          | none =>
            refine Or.inr ⟨hlk, fun hmem => ?_⟩
            rcases run_items_subset origin lookup metrics EC EI rest _ i hmem with h | h
            · rcases processItem_items_subset origin lookup metrics EC EI acc i i h with h2 | h2
              · rcases hitems i h2 with h3 | h3
                · exact hei h3
                · exact h3 (List.mem_cons_self _ _)
              · -- i was appended to items, impossible in the none branch
                have : (processItem origin lookup metrics EC EI acc i).1.items = acc.1.items := by
                  unfold processItem
                  rw [if_neg hc, if_pos (by simpa using hei), hlk]
                rw [this] at h
                rcases hitems i h with h3 | h3
                · exact hei h3
                · exact h3 (List.mem_cons_self _ _)
            · exact hnd'.1 h
    · exact ih _ hEC' hitems' hnd'.2 i hi'

lemma run_on_settled (origin : String) (lookup : ℤ → Option ItemInfo)
    (metrics : ℤ → Metrics) (st : Store) :
    ∀ (l : List ℤ) (sm : Summary),
    (∀ i ∈ l, settled origin lookup st i) →
    l.foldl (processItem origin lookup metrics (existingFor st origin) st.items) (st, sm)
      = (st, ⟨sm.num_added,
          sm.num_skipped + l.countP (fun i => decide (i ∈ existingFor st origin))⟩) := by
  intro l
  induction l with
  | nil => intro sm _; simp
  | cons i rest ih =>
    intro sm hs
    simp only [List.foldl_cons]
    by_cases hc : i ∈ existingFor st origin
    · have hstep : processItem origin lookup metrics (existingFor st origin) st.items (st, sm) i
          = (st, { sm with num_skipped := sm.num_skipped + 1 }) := by
        unfold processItem
        rw [if_pos hc]
      rw [hstep, ih _ (fun j hj => hs j (List.mem_cons_of_mem _ hj))]
      have : sm.num_skipped + 1 +
            List.countP (fun i => decide (i ∈ existingFor st origin)) rest
          = sm.num_skipped +
            List.countP (fun i => decide (i ∈ existingFor st origin)) (i :: rest) := by
        rw [List.countP_cons]
        simp [hc]
        omega
      rw [this]
    · have hset := hs i (List.mem_cons_self _ _)
      have hjunk : lookup i = none ∧ i ∉ st.items := by
        rcases hset with ⟨c, hcm, hci, hco⟩ | h
        · exact absurd (List.mem_map.mpr ⟨c, List.mem_filter.mpr ⟨hcm, by simp [hco]⟩, hci⟩) hc
        · exact h
      have hstep : processItem origin lookup metrics (existingFor st origin) st.items (st, sm) i
          = (st, sm) := by
        unfold processItem
        rw [if_neg hc, if_pos (by simpa using hjunk.2), hjunk.1]
      rw [hstep, ih _ (fun j hj => hs j (List.mem_cons_of_mem _ hj))]
      have : List.countP (fun i => decide (i ∈ existingFor st origin)) (i :: rest)
          = List.countP (fun i => decide (i ∈ existingFor st origin)) rest := by
        rw [List.countP_cons]
        simp [hc]
      rw [this]

lemma run_pairs_nodup (origin : String) (lookup : ℤ → Option ItemInfo)
    (metrics : ℤ → Metrics) (EC EI : List ℤ) :
    ∀ (l : List ℤ) (acc : Store × Summary),
    (acc.1.commodities.map (fun c => (c.item, c.origin))).Nodup →
    (∀ i ∈ l, ∀ c ∈ acc.1.commodities, c.item = i → c.origin = origin → i ∈ EC) →
    l.Nodup →
    (((l.foldl (processItem origin lookup metrics EC EI) acc)).1.commodities.map
      (fun c => (c.item, c.origin))).Nodup := by
  intro l
  induction l with
  | nil => intro acc h _ _; exact h
  | cons i0 rest ih =>
    intro acc hnd hinv hl
    have hl' := List.nodup_cons.mp hl
    simp only [List.foldl_cons]
    -- effect of step on the commodity rows
    by_cases hc : i0 ∈ EC
    · have hstep : (processItem origin lookup metrics EC EI acc i0).1.commodities
          = acc.1.commodities := by
        unfold processItem; rw [if_pos hc]
      refine ih _ (by rw [hstep]; exact hnd) ?_ hl'.2
      intro j hj c hcm
      rw [hstep] at hcm
      exact hinv j (List.mem_cons_of_mem _ hj) c hcm
    · have hnew : (processItem origin lookup metrics EC EI acc i0).1.commodities
          = acc.1.commodities ∨
          (processItem origin lookup metrics EC EI acc i0).1.commodities
          = acc.1.commodities ++
            [⟨i0, (metrics i0).totalQuantity, (metrics i0).marketPrice, origin⟩] := by
        unfold processItem
        rw [if_neg hc]
        split
        · match lookup i0 with
          | none => exact Or.inl rfl
          | some _ => exact Or.inr rfl
        · exact Or.inr rfl
      rcases hnew with heq | heq
      · refine ih _ (by rw [heq]; exact hnd) ?_ hl'.2
        intro j hj c hcm
        rw [heq] at hcm
        exact hinv j (List.mem_cons_of_mem _ hj) c hcm
      · refine ih _ ?_ ?_ hl'.2
        · rw [heq, List.map_append]
          refine List.Nodup.append hnd (by simp) ?_
          intro p hp
          simp only [List.map_cons, List.map_nil, List.mem_singleton]
          intro hpe
          obtain ⟨c, hcm, hcp⟩ := List.mem_map.mp hp
          rw [hpe] at hcp
          have h1 : c.item = i0 := congrArg Prod.fst hcp
          have h2 : c.origin = origin := congrArg Prod.snd hcp
          exact hc (hinv i0 (List.mem_cons_self _ _) c hcm h1 h2)
        · intro j hj c hcm hcj hco
          rw [heq] at hcm
          rcases List.mem_append.mp hcm with h | h
          · exact hinv j (List.mem_cons_of_mem _ hj) c h hcj hco
          · rw [List.mem_singleton.mp h] at hcj
            simp at hcj
            exact absurd (hcj ▸ hj) hl'.1

end AH

/-- C2: amended. Importing the same snapshot twice produces zero new
price-result records on the second run and leaves the store untouched;
every item id that carries an (item, origin) record after the first run is
counted as skipped on the second, while ids whose item fetch 404s (junk
items) are passed over silently without being counted; the run never
creates a second row with an existing (item, origin) pair, matching the
unique_together constraint of the store. -/
theorem C2_second_import_amended :
    ∀ (st : AH.Store) (origin : String) (ids : List ℤ)
      (lookup : ℤ → Option AH.ItemInfo) (metrics : ℤ → AH.Metrics),
    ids.Nodup →
    (AH.import_commodities (AH.import_commodities st origin ids lookup metrics).1
        origin ids lookup metrics).1
      = (AH.import_commodities st origin ids lookup metrics).1 ∧
    (AH.import_commodities (AH.import_commodities st origin ids lookup metrics).1
        origin ids lookup metrics).2.num_added = 0 ∧
    (AH.import_commodities (AH.import_commodities st origin ids lookup metrics).1
        origin ids lookup metrics).2.num_skipped
      = ids.countP (fun i => decide (i ∈ AH.existingFor
          (AH.import_commodities st origin ids lookup metrics).1 origin)) ∧
    ((st.commodities.map (fun c => (c.item, c.origin))).Nodup →
      ((AH.import_commodities st origin ids lookup metrics).1.commodities.map
        (fun c => (c.item, c.origin))).Nodup) := by
  intro st origin ids lookup metrics hnd
  have hEC : ∀ i ∈ AH.existingFor st origin,
      ∃ c ∈ (st, (⟨0, 0⟩ : AH.Summary)).1.commodities, c.item = i ∧ c.origin = origin := by
    intro i hi
    obtain ⟨c, hc, hci⟩ := List.mem_map.mp hi
    have hc2 := List.mem_filter.mp hc
    refine ⟨c, hc2.1, hci, ?_⟩
    simpa using hc2.2
  have hsettled : ∀ i ∈ ids, AH.settled origin lookup
      (AH.import_commodities st origin ids lookup metrics).1 i :=
    AH.run_settles origin lookup metrics (AH.existingFor st origin) st.items ids
      (st, ⟨0, 0⟩) hEC (fun x hx => Or.inl hx) hnd
  have h2 := AH.run_on_settled origin lookup metrics
    (AH.import_commodities st origin ids lookup metrics).1 ids ⟨0, 0⟩ hsettled
  have h3 : AH.import_commodities (AH.import_commodities st origin ids lookup metrics).1
      origin ids lookup metrics
      = ((AH.import_commodities st origin ids lookup metrics).1,
         ⟨0, 0 + ids.countP (fun i => decide (i ∈ AH.existingFor
            (AH.import_commodities st origin ids lookup metrics).1 origin))⟩) := h2
  refine ⟨by rw [h3], by rw [h3], by rw [h3]; simp, ?_⟩
  intro hpairs
  have hinv : ∀ i ∈ ids, ∀ c ∈ (st, (⟨0, 0⟩ : AH.Summary)).1.commodities,
      c.item = i → c.origin = origin → i ∈ AH.existingFor st origin := by
    intro i _ c hc hci hco
    exact List.mem_map.mpr ⟨c, List.mem_filter.mpr ⟨hc, by simp [hco]⟩, hci⟩
  exact AH.run_pairs_nodup origin lookup metrics (AH.existingFor st origin) st.items ids
    (st, ⟨0, 0⟩) hpairs hinv hnd

/-- C2 witness: the amended theorem instantiated at a concrete store and a
two-item snapshot in which item 7 is importable and item 8 is a junk item
whose detail fetch 404s. -/
theorem C2_second_import_witness :
    ([7, 8] : List ℤ).Nodup ∧
    ((AH.import_commodities (AH.import_commodities ⟨[], []⟩ "o" [7, 8]
          (fun i => if i = 7 then some ⟨"n", "c", "s", "i"⟩ else none) (fun _ => ⟨1, 10⟩)).1
        "o" [7, 8] (fun i => if i = 7 then some ⟨"n", "c", "s", "i"⟩ else none)
        (fun _ => ⟨1, 10⟩)).1
      = (AH.import_commodities ⟨[], []⟩ "o" [7, 8]
          (fun i => if i = 7 then some ⟨"n", "c", "s", "i"⟩ else none) (fun _ => ⟨1, 10⟩)).1 ∧
    (AH.import_commodities (AH.import_commodities ⟨[], []⟩ "o" [7, 8]
          (fun i => if i = 7 then some ⟨"n", "c", "s", "i"⟩ else none) (fun _ => ⟨1, 10⟩)).1
        "o" [7, 8] (fun i => if i = 7 then some ⟨"n", "c", "s", "i"⟩ else none)
        (fun _ => ⟨1, 10⟩)).2.num_added = 0 ∧
    (AH.import_commodities (AH.import_commodities ⟨[], []⟩ "o" [7, 8]
          (fun i => if i = 7 then some ⟨"n", "c", "s", "i"⟩ else none) (fun _ => ⟨1, 10⟩)).1
        "o" [7, 8] (fun i => if i = 7 then some ⟨"n", "c", "s", "i"⟩ else none)
        (fun _ => ⟨1, 10⟩)).2.num_skipped
      = ([7, 8] : List ℤ).countP (fun i => decide (i ∈ AH.existingFor
          (AH.import_commodities ⟨[], []⟩ "o" [7, 8]
            (fun i => if i = 7 then some ⟨"n", "c", "s", "i"⟩ else none)
            (fun _ => ⟨1, 10⟩)).1 "o")) ∧
    ((((⟨[], []⟩ : AH.Store).commodities.map (fun c => (c.item, c.origin))).Nodup →
      ((AH.import_commodities ⟨[], []⟩ "o" [7, 8]
          (fun i => if i = 7 then some ⟨"n", "c", "s", "i"⟩ else none)
          (fun _ => ⟨1, 10⟩)).1.commodities.map (fun c => (c.item, c.origin))).Nodup))) :=
  ⟨by decide,
    C2_second_import_amended ⟨[], []⟩ "o" [7, 8]
      (fun i => if i = 7 then some ⟨"n", "c", "s", "i"⟩ else none) (fun _ => ⟨1, 10⟩)
      (by decide)⟩

/-- C2 counterexample: with a snapshot holding the single junk item id 7
(item fetch 404s), the second import of the same snapshot creates no
record, yet id 7 is not counted as skipped, refuting the claim that every
item id present in the snapshot is counted as skipped on the second run. -/
theorem C2_idempotence_counterexample :
    (AH.import_commodities
        (AH.import_commodities ⟨[], []⟩ "o" [7] (fun _ => none) (fun _ => ⟨0, 0⟩)).1
        "o" [7] (fun _ => none) (fun _ => ⟨0, 0⟩)).2.num_skipped = 0 ∧
    (0 : ℕ) ≠ ([7] : List ℤ).length ∧
    ((7 : ℤ) ∈ ([7] : List ℤ)) ∧
    (AH.import_commodities
        (AH.import_commodities ⟨[], []⟩ "o" [7] (fun _ => none) (fun _ => ⟨0, 0⟩)).1
        "o" [7] (fun _ => none) (fun _ => ⟨0, 0⟩)).1.commodities = [] := by decide

/-- C9: on a fresh store and a snapshot holding one importable item, the
commodity import creates exactly one price-result record and skips nothing,
yet the returned summary reports num_added = 2, because lines 82 and 85 of
auctionhouse/jobs.py both increment num_added for the same record. -/
theorem C9_num_added_double_count :
    (AH.import_commodities ⟨[], []⟩ "o" [7] (fun _ => some ⟨"n", "c", "s", "i"⟩)
        (fun _ => ⟨3, 100⟩)).2.num_added = 2 ∧
    (AH.import_commodities ⟨[], []⟩ "o" [7] (fun _ => some ⟨"n", "c", "s", "i"⟩)
        (fun _ => ⟨3, 100⟩)).1.commodities.length = 1 ∧
    (AH.import_commodities ⟨[], []⟩ "o" [7] (fun _ => some ⟨"n", "c", "s", "i"⟩)
        (fun _ => ⟨3, 100⟩)).2.num_skipped = 0 := by decide

namespace Guild

lemma addLoop_spec (known : List ℤ) :
    ∀ (rep : List ℤ) (cur : List ℤ) (n : ℕ),
    rep.Nodup →
    (∀ r ∈ rep, r ∉ known → r ∉ cur) →
    rep.foldl (fun (acc : List ℤ × ℕ) r =>
        if r ∈ known then acc
        else ((if r ∈ acc.1 then acc.1 else acc.1 ++ [r]), acc.2 + 1)) (cur, n)
      = (cur ++ rep.filter (fun r => r ∉ known),
         n + (rep.filter (fun r => r ∉ known)).length) := by
  intro rep
  induction rep with
  | nil => intro cur n _ _; simp
  | cons r rest ih =>
    intro cur n hnd hdis
    have hnd' := List.nodup_cons.mp hnd
    simp only [List.foldl_cons]
    by_cases hr : r ∈ known
    · rw [if_pos hr, ih cur n hnd'.2 (fun x hx => hdis x (List.mem_cons_of_mem _ hx))]
      simp [List.filter_cons, hr]
    · rw [if_neg hr, if_neg (hdis r (List.mem_cons_self _ _) hr)]
      rw [ih (cur ++ [r]) (n + 1) hnd'.2 ?_]
      · have hfc : List.filter (fun x => decide (x ∉ known)) (r :: rest)
            = r :: List.filter (fun x => decide (x ∉ known)) rest := by
          simp [List.filter_cons, hr]
        rw [hfc, List.append_assoc]
        simp only [List.singleton_append, List.length_cons, Prod.mk.injEq]
        exact ⟨trivial, by omega⟩
      · intro x hx hxk
        have h1 : x ∉ cur := hdis x (List.mem_cons_of_mem _ hx) hxk
        have h2 : x ≠ r := fun he => hnd'.1 (he ▸ hx)
        simp [List.mem_append, h1, h2]

lemma remLoop_spec :
    ∀ (rem : List ℤ) (cur : List ℤ) (n : ℕ),
    rem.foldl (fun (acc : List ℤ × ℕ) i => (acc.1.erase i, acc.2 + 1)) (cur, n)
      = (cur.diff rem, n + rem.length) := by
  intro rem
  induction rem with
  | nil => intro cur n; simp
  | cons i rest ih =>
    intro cur n
    simp only [List.foldl_cons]
    rw [ih (cur.erase i) (n + 1), List.diff_cons]
    simp only [List.length_cons, Prod.mk.injEq]
    exact ⟨trivial, by omega⟩

lemma recipes_reconciliation_shape (known reported : List ℤ)
    (hr : reported.Nodup) :
    sync_character_recipes_for_character known reported
      = ((known ++ reported.filter (fun r => r ∉ known)).diff
           (known.filter (fun i => i ∉ reported)),
         (reported.filter (fun r => r ∉ known)).length,
         (known.filter (fun i => i ∉ reported)).length) := by
  unfold sync_character_recipes_for_character
  rw [addLoop_spec known reported known 0 hr (fun r _ h => h)]
  dsimp only
  rw [remLoop_spec]
  simp

end Guild

/-- C3: the reconciliation computes to_add = R - E, to_remove = E - R and
to_keep = E ∩ R in both uses, and for the known-recipe relation the
post-state equals the reported set; for the guild roster, however, the
removal pass crashes on the first stale member (QuerySet.save does not
exist), the run aborts with the wrapped domain error and the post-state
keeps the stale member, so the post-state does not equal R there. -/
theorem C3_reconciliation_sets :
    (∀ known reported : List ℤ, known.Nodup → reported.Nodup →
      (Guild.sync_character_recipes_for_character known reported).1.toFinset
        = reported.toFinset ∧
      (Guild.sync_character_recipes_for_character known reported).2.1
        = (reported.filter (fun r => r ∉ known)).length ∧
      (Guild.sync_character_recipes_for_character known reported).2.2
        = (known.filter (fun i => i ∉ reported)).length ∧
      (∀ x ∈ known, x ∈ reported →
        x ∈ (Guild.sync_character_recipes_for_character known reported).1)) ∧
    (Guild.sync_guild_roster
        ⟨[2], [⟨10, "A", 60, some 2, some 0, 1, 1, none, 0, ""⟩,
               ⟨11, "B", 60, some 2, some 0, 1, 1, none, 0, ""⟩], [1], [1], []⟩
        2 [⟨10, "A", 60, 0, 1, 1⟩]).2
      = .error (.guildDataImportError
          "Failed to sync guild roster: QuerySet object has no attribute save") ∧
    ((Guild.sync_guild_roster
        ⟨[2], [⟨10, "A", 60, some 2, some 0, 1, 1, none, 0, ""⟩,
               ⟨11, "B", 60, some 2, some 0, 1, 1, none, 0, ""⟩], [1], [1], []⟩
        2 [⟨10, "A", 60, 0, 1, 1⟩]).1.characters.filter
          (fun c => c.guild = some 2)).map (fun c => c.id) = [10, 11] := by
  refine ⟨?_, rfl, by decide⟩
  intro known reported hk hr
  have hsh := Guild.recipes_reconciliation_shape known reported hr
  have hA : (reported.filter (fun r => r ∉ known)).Nodup :=
    (List.filter_sublist reported).nodup hr
  have hdisj : known.Disjoint (reported.filter (fun r => r ∉ known)) := by
    rw [List.disjoint_left]
    intro a ha hA2
    have := List.mem_filter.mp hA2
    simp at this
    exact this.2 ha
  have hnd2 : (known ++ reported.filter (fun r => r ∉ known)).Nodup :=
    hk.append hA hdisj
  refine ⟨?_, by rw [hsh], by rw [hsh], ?_⟩
  · rw [hsh]
    apply Finset.ext
    intro x
    simp only [List.mem_toFinset]
    rw [List.Nodup.mem_diff_iff hnd2]
    simp only [List.mem_append, List.mem_filter, decide_eq_true_eq, decide_not,
      Bool.not_eq_true', decide_eq_false_iff_not, not_and, not_not]
    by_cases hxk : x ∈ known <;> by_cases hxr : x ∈ reported <;> simp [hxk, hxr]
  · intro x hxk hxr
    rw [hsh]
    rw [List.Nodup.mem_diff_iff hnd2]
    refine ⟨List.mem_append_left _ hxk, ?_⟩
    intro hmem
    have := List.mem_filter.mp hmem
    simp at this
    exact this.2 hxr

/-- C3 witness: the reconciliation part of the theorem instantiated at the
concrete sets E = [1, 2, 3] and R = [2, 3, 4]. -/
theorem C3_reconciliation_witness :
    ([1, 2, 3] : List ℤ).Nodup ∧ ([2, 3, 4] : List ℤ).Nodup ∧
    ((Guild.sync_character_recipes_for_character [1, 2, 3] [2, 3, 4]).1.toFinset
        = ([2, 3, 4] : List ℤ).toFinset ∧
      (Guild.sync_character_recipes_for_character [1, 2, 3] [2, 3, 4]).2.1
        = (([2, 3, 4] : List ℤ).filter (fun r => r ∉ ([1, 2, 3] : List ℤ))).length ∧
      (Guild.sync_character_recipes_for_character [1, 2, 3] [2, 3, 4]).2.2
        = (([1, 2, 3] : List ℤ).filter (fun i => i ∉ ([2, 3, 4] : List ℤ))).length ∧
      (∀ x ∈ ([1, 2, 3] : List ℤ), x ∈ ([2, 3, 4] : List ℤ) →
        x ∈ (Guild.sync_character_recipes_for_character [1, 2, 3] [2, 3, 4]).1)) :=
  ⟨by decide, by decide,
    C3_reconciliation_sets.1 [1, 2, 3] [2, 3, 4] (by decide) (by decide)⟩

/-- C8: a guild roster sync that finds one existing member no longer
reported upstream does not detach that member: the removal pass calls save
on a Django QuerySet, which raises AttributeError, so the run aborts with
the wrapped GuildDataImportError, the member row keeps its guild relation
and nothing is counted in num_removed; the claim that the member is
detached and the run completes normally fails on this input. -/
theorem C8_stale_member_detach_crashes :
    (Guild.sync_guild_roster
        ⟨[1], [⟨10, "A", 60, some 1, some 0, 1, 1, none, 0, ""⟩], [1], [1], []⟩ 1 []).2
      = .error (.guildDataImportError
          "Failed to sync guild roster: QuerySet object has no attribute save") ∧
    (Guild.sync_guild_roster
        ⟨[1], [⟨10, "A", 60, some 1, some 0, 1, 1, none, 0, ""⟩], [1], [1], []⟩ 1 []).1
      = ⟨[1], [⟨10, "A", 60, some 1, some 0, 1, 1, none, 0, ""⟩], [1], [1], []⟩ ∧
    (Guild.sync_guild_roster
        ⟨[1], [⟨10, "A", 60, some 1, some 0, 1, 1, none, 0, ""⟩], [1], [1], []⟩
        1 []).1.characters.map (fun c => c.guild) = [some 1] :=
  ⟨rfl, by decide, by decide⟩

/-- C10: amended. The guild-domain operations import_guild and
sync_guild_roster wrap every failure into GuildDataImportError (shown here
for sync_guild_roster: an error result is always the domain error), but
sync_characters has no surrounding handler, so a non-NotFound client
failure propagates raw out of the run as the low-level BattleNetAPIError. -/
theorem C10_error_wrapping_amended :
    (∀ (st : Guild.GStore) (gid : ℤ) (members : List Guild.Member) (e : Guild.GuildError),
      (Guild.sync_guild_roster st gid members).2 = .error e →
      ∃ m, e = Guild.GuildError.guildDataImportError m) ∧
    (Guild.sync_characters
        ⟨[1], [⟨20, "B", 60, some 1, some 0, 1, 1, none, 0, ""⟩], [1], [1], []⟩
        (fun _ => .fatal "500 Server Error") (fun _ => .ok "icon")).2
      = .error (.battleNetAPIError "500 Server Error") := by
  refine ⟨?_, rfl⟩
  intro st gid members e h
  unfold Guild.sync_guild_roster at h
  split at h
  · exact ⟨_, (Except.error.inj h).symm⟩
  · dsimp at h
    split at h
    · exact ⟨_, (Except.error.inj h).symm⟩
    · split at h
      · simp at h
      · exact ⟨_, (Except.error.inj h).symm⟩

/-- C10 witness: the wrapping half of the theorem applied to a concrete
failing roster run (unknown guild), with the error hypothesis discharged
by computation. -/
theorem C10_error_wrapping_witness :
    ∃ m, Guild.GuildError.guildDataImportError "No existing guild"
      = Guild.GuildError.guildDataImportError m :=
  C10_error_wrapping_amended.1 ⟨[], [], [], [], []⟩ 1 [] _ rfl

/-- C10 counterexample: a character sync run in which the summary fetch of
one character fails with a non-NotFound client error surfaces the raw
BattleNetAPIError to the caller, which is not the domain error
GuildDataImportError for any message, refuting the claim that low-level
client errors are never propagated raw out of an orchestrator run. -/
theorem C10_raw_client_error_counterexample :
    (Guild.sync_characters
        ⟨[1], [⟨21, "C", 60, some 1, some 0, 1, 1, none, 0, ""⟩], [1], [1], []⟩
        (fun _ => .fatal "HTTP Error 500") (fun _ => .ok "icon")).2
      = .error (.battleNetAPIError "HTTP Error 500") ∧
    (∀ m, Guild.GuildError.battleNetAPIError "HTTP Error 500"
      ≠ Guild.GuildError.guildDataImportError m) :=
  ⟨rfl, fun m => by simp⟩

namespace GameData

lemma tierRecipeLoop_abort (known : List ℤ) (mediaFetch recipeFetch : ℤ → Fetch RecipeData)
    (bad : ℤ) (msg : String) (post : List ℤ)
    (hbm : ∃ d, mediaFetch bad = .ok d) (hbr : recipeFetch bad = .notFound msg)
    (hbk : bad ∉ known) :
    ∀ (pre : List ℤ) (st : RStore) (nrec nrea : ℕ),
    (∀ id ∈ pre, (∃ d, mediaFetch id = .ok d) ∧ (∃ d, recipeFetch id = .ok d)) →
    known ⊆ st.recipes →
    ∃ st2, tierRecipeLoop known mediaFetch recipeFetch (pre ++ bad :: post) st nrec nrea
        = .inr (st2, .battleNetNotFound msg) ∧
      (∀ x ∈ st.recipes, x ∈ st2.recipes) ∧
      (∀ id ∈ pre, id ∈ st2.recipes) ∧
      (∀ x ∈ st2.recipes, x ∈ st.recipes ∨ x ∈ pre) := by
  intro pre
  induction pre with
  | nil =>
    intro st nrec nrea _ _
    simp only [List.nil_append]
    have hstep : tierRecipeLoop known mediaFetch recipeFetch (bad :: post) st nrec nrea
        = .inr (st, .battleNetNotFound msg) := by
      obtain ⟨d, hd⟩ := hbm
      unfold tierRecipeLoop
      rw [if_neg hbk]
      unfold sync_recipe
      rw [hd, hbr]
    exact ⟨st, hstep, fun x hx => hx, by simp, fun x hx => Or.inl hx⟩
  | cons a pre2 ih =>
    intro st nrec nrea hok hks
    simp only [List.cons_append]
    by_cases ha : a ∈ known
    · obtain ⟨st2, h1, h2, h3, h4⟩ :=
        ih st nrec nrea (fun id hid => hok id (List.mem_cons_of_mem _ hid)) hks
      refine ⟨st2, ?_, h2, ?_,
        fun x hx => (h4 x hx).imp (fun h => h) (List.mem_cons_of_mem _)⟩
      · unfold tierRecipeLoop
        rw [if_pos ha]
        exact h1
      · intro id hid
        rcases List.mem_cons.mp hid with rfl | hid2
        · exact h2 id (hks ha)
        · exact h3 id hid2
    · obtain ⟨hm, hrk⟩ := hok a (List.mem_cons_self _ _)
      obtain ⟨dm, hdm⟩ := hm
      obtain ⟨dr, hdr⟩ := hrk
      have hsync : sync_recipe st mediaFetch recipeFetch a
          = .inl ({ recipes := if a ∈ st.recipes then st.recipes else st.recipes ++ [a],
                    reagents := dr.reagents.foldl
                      (fun rs p => if p.1 ∈ rs then rs else rs ++ [p.1]) st.reagents },
                  1, dr.reagents.length) := by
        unfold sync_recipe
        rw [hdm, hdr]
      have hsub : ∀ x ∈ st.recipes,
          x ∈ (if a ∈ st.recipes then st.recipes else st.recipes ++ [a]) := by
        intro x hx
        by_cases h : a ∈ st.recipes
        · rw [if_pos h]; exact hx
        · rw [if_neg h]; exact List.mem_append_left _ hx
      have hamem : a ∈ (if a ∈ st.recipes then st.recipes else st.recipes ++ [a]) := by
        by_cases h : a ∈ st.recipes
        · rw [if_pos h]; exact h
        · rw [if_neg h]; exact List.mem_append_right _ (List.mem_singleton_self _)
      obtain ⟨st2, h1, h2, h3, h4⟩ :=
        ih ({ recipes := if a ∈ st.recipes then st.recipes else st.recipes ++ [a],
              reagents := dr.reagents.foldl
                (fun rs p => if p.1 ∈ rs then rs else rs ++ [p.1]) st.reagents })
          (nrec + 1) (nrea + dr.reagents.length)
          (fun id hid => hok id (List.mem_cons_of_mem _ hid))
          (fun x hx => hsub x (hks hx))
      refine ⟨st2, ?_, fun x hx => h2 x (hsub x hx), ?_, ?_⟩
      · unfold tierRecipeLoop
        rw [if_neg ha, hsync]
        exact h1
      · intro id hid
        rcases List.mem_cons.mp hid with rfl | hid2
        · exact h2 id hamem
        · exact h3 id hid2
      · intro x hx
        rcases h4 x hx with hx2 | hx2
        · by_cases h : a ∈ st.recipes
          · rw [if_pos h] at hx2
            exact Or.inl hx2
          · rw [if_neg h] at hx2
            rcases List.mem_append.mp hx2 with h3x | h3x
            · exact Or.inl h3x
            · exact Or.inr ((List.mem_singleton.mp h3x) ▸ List.mem_cons_self _ _)
        · exact Or.inr (List.mem_cons_of_mem _ hx2)

end GameData

/-- C5: amended. In the recipe-catalog import the only handler is the
per-skill-tier one, which re-raises as GameDataImportError: a NotFound
failure on the per-item fetch of one recipe id aborts the whole run instead
of skipping the item.  Recipe ids processed before the failing one are
committed and remain, the failing id and the ids after it are not imported,
and no not-found count is reported (the run yields the domain error, not a
summary). -/
theorem C5_notfound_aborts_batch_amended :
    ∀ (st : GameData.RStore) (t : ℤ) (tierFetch : ℤ → GameData.Fetch (List ℤ))
      (mediaFetch recipeFetch : ℤ → GameData.Fetch GameData.RecipeData)
      (pre : List ℤ) (bad : ℤ) (post : List ℤ) (msg : String),
    tierFetch t = .ok (pre ++ bad :: post) →
    (∀ id ∈ pre, (∃ d, mediaFetch id = .ok d) ∧ (∃ d, recipeFetch id = .ok d)) →
    (∃ d, mediaFetch bad = .ok d) →
    recipeFetch bad = .notFound msg →
    bad ∉ st.recipes →
    (GameData.import_recipes_and_reagents st [t] tierFetch mediaFetch recipeFetch).2
      = .error (.gameDataImportError "Failed to import profession recipe data") ∧
    (∀ x ∈ st.recipes,
      x ∈ (GameData.import_recipes_and_reagents st [t] tierFetch mediaFetch
        recipeFetch).1.recipes) ∧
    (∀ id ∈ pre,
      id ∈ (GameData.import_recipes_and_reagents st [t] tierFetch mediaFetch
        recipeFetch).1.recipes) ∧
    (bad ∉ pre →
      bad ∉ (GameData.import_recipes_and_reagents st [t] tierFetch mediaFetch
        recipeFetch).1.recipes) ∧
    (∀ id ∈ post, id ∉ st.recipes → id ∉ pre →
      id ∉ (GameData.import_recipes_and_reagents st [t] tierFetch mediaFetch
        recipeFetch).1.recipes) := by
  intro st t tierFetch mediaFetch recipeFetch pre bad post msg htf hok hbm hbr hbs
  obtain ⟨st2, hloop, hmono, hpre, honly⟩ :=
    GameData.tierRecipeLoop_abort st.recipes mediaFetch recipeFetch bad msg post hbm hbr hbs
      pre st 0 0 hok (fun x hx => hx)
  have hrun : GameData.import_recipes_and_reagents st [t] tierFetch mediaFetch recipeFetch
      = (st2, .error (.gameDataImportError "Failed to import profession recipe data")) := by
    unfold GameData.import_recipes_and_reagents GameData.import_recipes_and_reagents.go
    simp only [htf]
    rw [hloop]
  rw [hrun]
  refine ⟨rfl, hmono, hpre, ?_, ?_⟩
  · intro hbp hmem
    rcases honly bad hmem with h | h
    · exact hbs h
    · exact hbp h
  · intro id hid h1 h2 hmem
    rcases honly id hmem with h | h
    · exact h1 h
    · exact h2 h

/-- C5 witness: the amended theorem instantiated at a five-recipe tier in
which the fetch of recipe id 3 404s while ids 1, 2, 4, 5 are available. -/
theorem C5_notfound_witness :
    ((fun _ : ℤ => GameData.Fetch.ok [1, 2, 3, 4, 5]) 1
        = GameData.Fetch.ok (([1, 2] : List ℤ) ++ 3 :: [4, 5])) ∧
    ((GameData.import_recipes_and_reagents ⟨[], []⟩ [1]
        (fun _ => .ok [1, 2, 3, 4, 5]) (fun _ => .ok ⟨"m", []⟩)
        (fun id => if id = 3 then .notFound "404 Not Found" else .ok ⟨"r", []⟩)).2
      = .error (.gameDataImportError "Failed to import profession recipe data") ∧
    (∀ x ∈ (⟨[], []⟩ : GameData.RStore).recipes,
      x ∈ (GameData.import_recipes_and_reagents ⟨[], []⟩ [1]
        (fun _ => .ok [1, 2, 3, 4, 5]) (fun _ => .ok ⟨"m", []⟩)
        (fun id => if id = 3 then .notFound "404 Not Found"
          else .ok ⟨"r", []⟩)).1.recipes) ∧
    (∀ id ∈ ([1, 2] : List ℤ),
      id ∈ (GameData.import_recipes_and_reagents ⟨[], []⟩ [1]
        (fun _ => .ok [1, 2, 3, 4, 5]) (fun _ => .ok ⟨"m", []⟩)
        (fun id => if id = 3 then .notFound "404 Not Found"
          else .ok ⟨"r", []⟩)).1.recipes) ∧
    ((3 : ℤ) ∉ ([1, 2] : List ℤ) →
      (3 : ℤ) ∉ (GameData.import_recipes_and_reagents ⟨[], []⟩ [1]
        (fun _ => .ok [1, 2, 3, 4, 5]) (fun _ => .ok ⟨"m", []⟩)
        (fun id => if id = 3 then .notFound "404 Not Found"
          else .ok ⟨"r", []⟩)).1.recipes) ∧
    (∀ id ∈ ([4, 5] : List ℤ), id ∉ (⟨[], []⟩ : GameData.RStore).recipes →
      id ∉ ([1, 2] : List ℤ) →
      id ∉ (GameData.import_recipes_and_reagents ⟨[], []⟩ [1]
        (fun _ => .ok [1, 2, 3, 4, 5]) (fun _ => .ok ⟨"m", []⟩)
        (fun id => if id = 3 then .notFound "404 Not Found"
          else .ok ⟨"r", []⟩)).1.recipes)) :=
  ⟨rfl,
    C5_notfound_aborts_batch_amended ⟨[], []⟩ 1
      (fun _ => .ok [1, 2, 3, 4, 5]) (fun _ => .ok ⟨"m", []⟩)
      (fun id => if id = 3 then .notFound "404 Not Found" else .ok ⟨"r", []⟩)
      [1, 2] 3 [4, 5] "404 Not Found" rfl
      (by
        intro id hid
        rcases List.mem_cons.mp hid with rfl | hid2
        · exact ⟨⟨_, rfl⟩, ⟨_, rfl⟩⟩
        · rcases List.mem_cons.mp hid2 with rfl | hid3
          · exact ⟨⟨_, rfl⟩, ⟨_, rfl⟩⟩
          · simp at hid3)
      ⟨⟨"m", []⟩, rfl⟩ rfl (by decide)⟩

/-- C5 counterexample: on a fresh catalog with one skill tier listing the
recipe ids 1..5, where the fetch of id 3 404s, the run aborts with the
wrapped GameDataImportError after committing only ids 1 and 2: the four
other ids are not all imported and no not-found entry is reported, refuting
the claim that the batch survives one missing item. -/
theorem C5_notfound_counterexample :
    (GameData.import_recipes_and_reagents ⟨[], []⟩ [1]
        (fun _ => .ok [1, 2, 3, 4, 5]) (fun _ => .ok ⟨"m", []⟩)
        (fun id => if id = 3 then .notFound "404 Not Found" else .ok ⟨"r", []⟩)).2
      = .error (.gameDataImportError "Failed to import profession recipe data") ∧
    (GameData.import_recipes_and_reagents ⟨[], []⟩ [1]
        (fun _ => .ok [1, 2, 3, 4, 5]) (fun _ => .ok ⟨"m", []⟩)
        (fun id => if id = 3 then .notFound "404 Not Found" else .ok ⟨"r", []⟩)).1.recipes
      = [1, 2] ∧
    (4 : ℤ) ∉ (GameData.import_recipes_and_reagents ⟨[], []⟩ [1]
        (fun _ => .ok [1, 2, 3, 4, 5]) (fun _ => .ok ⟨"m", []⟩)
        (fun id => if id = 3 then .notFound "404 Not Found"
          else .ok ⟨"r", []⟩)).1.recipes :=
  ⟨rfl, by decide, by decide⟩
